import Mathlib

set_option maxRecDepth 65536
set_option maxHeartbeats 1000000

/-!
Verification of the story-generation and scene-parsing pipeline of the
TaleCraft AI repository (class GeminiStoryGenerator).  Text is modelled as
List Char; JavaScript string operations (trim, split, regex scene markers,
substring containment) are embedded as executable Lean functions below.
-/

/-- The JS whitespace class (ASCII part), used by String.prototype.trim and
the regex class backslash-s. -/
def isWsChar (c : Char) : Bool :=
  c = ' ' || c = '\t' || c = '\n' || c = '\r' || c = Char.ofNat 11 || c = Char.ofNat 12

/-- Sentence-terminating punctuation: the regex class [.!?] used by
splitTextIntoChunks. -/
def isPunctChar (c : Char) : Bool :=
  c = '.' || c = '!' || c = '?'

/-- Left part of JS trim: drop leading whitespace. -/
def trimLeft (l : List Char) : List Char :=
  l.dropWhile isWsChar

/-- Right part of JS trim: drop trailing whitespace. -/
def trimRight : List Char → List Char
  | [] => []
  | c :: cs =>
    match trimRight cs with
    | [] => if isWsChar c then [] else [c]
    | r => c :: r

/-- JS String.prototype.trim. -/
def jsTrim (l : List Char) : List Char :=
  trimLeft (trimRight l)

/-- Prepend a character onto the first segment of a non-empty segmentation. -/
def consHead (c : Char) : List (List Char) → List (List Char)
  | [] => [[c]]
  | h :: t => (c :: h) :: t

/-- JS split on a single newline character. -/
def splitOnNl : List Char → List (List Char)
  | [] => [[]]
  | c :: cs => if c = '\n' then [] :: splitOnNl cs else consHead c (splitOnNl cs)

/-- JS Array.prototype.join with separator a single newline. -/
def joinNl : List (List Char) → List Char
  | [] => []
  | [l] => l
  | l :: ls => l ++ '\n' :: joinNl ls

/-- JS split on the regex [.!?]+ (runs of sentence punctuation are single
separators).  The Boolean flag records whether we are inside a punctuation
run. -/
def splitPunctAux : Bool → List Char → List (List Char)
  | _, [] => [[]]
  | inRun, c :: cs =>
    if isPunctChar c then
      if inRun then splitPunctAux true cs
      else [] :: splitPunctAux true cs
    else consHead c (splitPunctAux false cs)

def splitPunct (l : List Char) : List (List Char) :=
  splitPunctAux false l

/-- JS Array.prototype.join with separator a dot and a space. -/
def joinDotSpace : List (List Char) → List Char
  | [] => []
  | [l] => l
  | l :: ls => l ++ '.' :: ' ' :: joinDotSpace ls

/-- JS Array.prototype.join with separator a comma and a space. -/
def joinCommaSpace : List (List Char) → List Char
  | [] => []
  | [l] => l
  | l :: ls => l ++ ',' :: ' ' :: joinCommaSpace ls

/-- JS String.prototype.toLowerCase (ASCII). -/
def toLowerList (l : List Char) : List Char :=
  l.map Char.toLower

/-- Decimal digits of a number, as JS template interpolation renders it. -/
def natChars (n : Nat) : List Char :=
  Nat.toDigits 10 n

/-- JS String.prototype.includes: the needle occurs contiguously in the
haystack. -/
def containsSub (needle hay : List Char) : Bool :=
  hay.tails.any (fun t => needle.isPrefixOf t)

/-! ## The scene-marker regexes

The primary parsing strategy splits on the case-insensitive regex
SCENE backslash-s+ backslash-d+ colon; the fallback line scan recognizes
headers by the anchored case-insensitive regex SCENE backslash-s+
backslash-d+ (no colon), and strips them with the anchored regex
SCENE backslash-s+ backslash-d+ colon backslash-s*.  Because the whitespace,
digit and colon character classes are pairwise disjoint, the greedy
matches below are exactly the regex matches. -/

/-- Match a fixed lowercase pattern case-insensitively at the head of the
input, returning the rest of the input. -/
def matchCI : List Char → List Char → Option (List Char)
  | [], cs => some cs
  | _ :: _, [] => none
  | p :: ps, c :: cs => if c.toLower = p then matchCI ps cs else none

def sceneWord : List Char := "scene".toList

/-- Regex backslash-s+ : at least one whitespace char, maximal munch. -/
def skipWs1 : List Char → Option (List Char)
  | [] => none
  | c :: cs => if isWsChar c then some (cs.dropWhile isWsChar) else none

/-- Regex backslash-d+ : at least one digit, maximal munch. -/
def skipDigits1 : List Char → Option (List Char)
  | [] => none
  | c :: cs => if c.isDigit then some (cs.dropWhile Char.isDigit) else none

def expectColon : List Char → Option (List Char)
  | [] => none
  | c :: cs => if c = ':' then some cs else none

/-- One match of the scene-marker regex (SCENE, whitespace, digits, colon;
case-insensitive) at the head of the input; returns the input after the
match. -/
def matchMarker (cs : List Char) : Option (List Char) :=
  (((matchCI sceneWord cs).bind skipWs1).bind skipDigits1).bind expectColon

/-- The no-colon header test of the fallback line scan (anchored,
case-insensitive SCENE whitespace digits). -/
def matchHeaderNC (cs : List Char) : Bool :=
  match (matchCI sceneWord cs).bind skipWs1 with
  | some (c :: _) => c.isDigit
  | _ => false

/-- One application of String.prototype.replace with the anchored regex
SCENE backslash-s+ backslash-d+ colon backslash-s* and empty replacement. -/
def stripHeader (cs : List Char) : List Char :=
  match matchMarker cs with
  | some rest => rest.dropWhile isWsChar
  | none => cs

/-- Splitting on the global scene-marker regex, scanning left to right.
The fuel argument bounds the number of steps; every step consumes at least
one input character, so fuel = input length suffices. -/
def splitSceneAux : Nat → List Char → List Char → List (List Char)
  | 0, cs, acc => [acc.reverse ++ cs]
  | fuel + 1, cs, acc =>
    match matchMarker cs with
    | some rest => acc.reverse :: splitSceneAux fuel rest []
    | none =>
      match cs with
      | [] => [acc.reverse]
      | c :: cs' => splitSceneAux fuel cs' (c :: acc)

/-- JS String.prototype.split on the scene-marker regex (global,
case-insensitive). -/
def splitScene (text : List Char) : List (List Char) :=
  splitSceneAux text.length text []

/-- Whether a scene marker occurs anywhere in the text. -/
def hasSceneMarker (text : List Char) : Bool :=
  text.tails.any (fun s => (matchMarker s).isSome)

/-! ## Data model -/

/-- The character profile supplied by the caller (characterDNA in the
source).  Absent optional fields are modelled as empty. -/
structure CharacterDNA where
  name : List Char
  traits : List (List Char)
  description : List Char
deriving DecidableEq, Repr

/-- One scene record.  The description field is Option-valued because one
construction site of the source (the padding loop of parseStoryIntoScenes)
builds a scene object without a description property; none models the
absent property. -/
structure Scene where
  id : List Char
  number : Nat
  title : List Char
  content : List Char
  description : Option (List Char)
  characterName : List Char
  storyboardPrompt : List Char
deriving DecidableEq, Repr

/-- A parsed story.  The optional JS flags emergencyFallback and
fallbackParsed (absent = falsy) are modelled as Bool with default false. -/
structure Story where
  title : List Char
  scenes : List Scene
  totalScenes : Nat
  character : CharacterDNA
  emergencyFallback : Bool := false
  fallbackParsed : Bool := false
deriving DecidableEq, Repr

structure GenMetadata where
  genre : List Char
  character : List Char
  estimatedReadTime : Nat
  sceneCount : Nat
  generatedBy : List Char
  attempt : Nat
deriving DecidableEq, Repr

structure GenerationResult where
  success : Bool
  story : Story
  rawText : List Char
  metadata : GenMetadata
deriving DecidableEq, Repr

/-- The scene id template scene_ followed by the number. -/
def sceneId (n : Nat) : List Char :=
  "scene_".toList ++ natChars n

/-- The story title template: the character name followed by an apostrophe
and the text s Adventure. -/
def adventureTitle (char : CharacterDNA) : List Char :=
  char.name ++ (Char.ofNat 39 :: "s Adventure".toList)

/-! ## generateStoryboardPrompt (TextClassifier + StoryboardPromptBuilder) -/

/-- generateStoryboardPrompt from the source: keyword classification of the
lower-cased scene content into setting, action and mood, composed into the
storyboard prompt template (template-literal whitespace reproduced,
including the four-space indentation of its continuation lines). -/
def generateStoryboardPrompt (sceneTitle sceneContent : List Char)
    (characterDNA : CharacterDNA) : List Char :=
  let characterName :=
    if characterDNA.name.length = 0 then "character".toList else characterDNA.name
  let characterTraits :=
    let j := joinCommaSpace (characterDNA.traits.take 2)
    if j.length = 0 then "adventurous".toList else j
  let contentWords := toLowerList sceneContent
  let inc := fun (kw : String) => containsSub kw.toList contentWords
  let setting :=
    if inc "library" || inc "book" then "ancient library with books and shelves".toList
    else if inc "forest" || inc "tree" then "mystical forest".toList
    else if inc "cave" || inc "underground" then "mysterious cave".toList
    else if inc "castle" || inc "tower" then "medieval castle".toList
    else if inc "city" || inc "street" then "bustling city street".toList
    else if inc "mountain" || inc "peak" then "mountain landscape".toList
    else if inc "ocean" || inc "sea" then "coastal scene with ocean".toList
    else "indoor scene".toList
  let action :=
    if inc "running" || inc "chase" then "running or chasing".toList
    else if inc "fighting" || inc "battle" then "in combat stance".toList
    else if inc "searching" || inc "looking" then "searching and investigating".toList
    else if inc "climbing" || inc "ascending" then "climbing".toList
    else if inc "flying" || inc "soaring" then "flying through the air".toList
    else if inc "discovering" || inc "found" then "making a discovery".toList
    else if inc "hiding" || inc "sneaking" then "hiding or sneaking".toList
    else "standing".toList
  let mood :=
    if inc "scared" || inc "afraid" || inc "terrified" then "scared or worried".toList
    else if inc "happy" || inc "excited" || inc "joy" then "happy and excited".toList
    else if inc "angry" || inc "furious" || inc "mad" then "angry or determined".toList
    else if inc "surprised" || inc "shocked" || inc "amazed" then "surprised and amazed".toList
    else if inc "sad" || inc "crying" || inc "upset" then "sad or emotional".toList
    else if inc "curious" || inc "wonder" || inc "investigate" then "curious and focused".toList
    else "neutral".toList
  "Create a detailed storyboard panel for: ".toList ++ sceneTitle ++
    "\n    \n    Main character: ".toList ++ characterName ++ " (".toList ++
    characterTraits ++ ")\n    Setting: ".toList ++ setting ++
    "\n    Action: ".toList ++ characterName ++ " is ".toList ++ action ++
    "\n    Mood/Expression: ".toList ++ mood ++
    "\n    \n    Visual style: Clean storyboard illustration, cinematic composition, clear character poses, detailed background elements, professional animation reference quality. Character should be the main focus with supporting environmental details.\n    \n    Camera angle: Medium shot showing character and environment\n    Lighting: Dramatic and appropriate for the scene mood\n    \n    Based on story content: ".toList ++
    sceneContent.take 150 ++ "...".toList

/-! ## createEmergencyFallback and the parsing strategies -/

/-- createEmergencyFallback from the source: the single-scene Story used
when the raw text is empty or under 50 characters. -/
def createEmergencyFallback (characterDNA : CharacterDNA) (storyText : List Char) : Story :=
  let fallbackContent :=
    if storyText.length = 0 then
      characterDNA.name ++ " embarks on an exciting adventure filled with challenges and discoveries.".toList
    else storyText
  { title := adventureTitle characterDNA
    scenes := [{ id := "scene_1".toList
                 number := 1
                 title := "The Adventure Begins".toList
                 content := fallbackContent
                 description := some fallbackContent
                 characterName := characterDNA.name
                 storyboardPrompt := characterDNA.name ++ " begins an exciting adventure".toList }]
    totalScenes := 1
    character := characterDNA
    emergencyFallback := true }

/-- A scene pushed by the primary strategy of parseStoryIntoScenes. -/
def mkPrimScene (characterDNA : CharacterDNA) (n : Nat) (title content : List Char) : Scene :=
  { id := sceneId n
    number := n
    title := title
    content := content
    description := some content
    characterName := characterDNA.name
    storyboardPrompt := generateStoryboardPrompt title content characterDNA }

/-- The primary-strategy loop of parseStoryIntoScenes: for each part of the
marker split (while fewer than 4 scenes collected), trim it, take the first
line as title and the remaining lines as content, and push a scene when
both are non-empty. -/
def primLoop (characterDNA : CharacterDNA) : List (List Char) → List Scene → List Scene
  | [], scenes => scenes
  | p :: ps, scenes =>
    if scenes.length < 4 then
      let part := jsTrim p
      if part.length = 0 then primLoop characterDNA ps scenes
      else
        let lines := splitOnNl part
        let title := jsTrim (lines.headD [])
        let content := jsTrim (joinNl lines.tail)
        if title.length > 0 && content.length > 0 then
          primLoop characterDNA ps
            (scenes ++ [mkPrimScene characterDNA (scenes.length + 1) title content])
        else primLoop characterDNA ps scenes
    else scenes

/-- One generic continuation scene pushed by the padding loop of
parseStoryIntoScenes.  Note: the source builds this object without a
description property. -/
def padScene (characterDNA : CharacterDNA) (n : Nat) : Scene :=
  let fallbackContent :=
    characterDNA.name ++ " continues their adventure with determination and courage.".toList
  { id := sceneId n
    number := n
    title := "Scene ".toList ++ natChars n
    content := fallbackContent
    description := none
    characterName := characterDNA.name
    storyboardPrompt :=
      generateStoryboardPrompt ("Scene ".toList ++ natChars n) fallbackContent characterDNA }

/-- The while-loop padding scenes up to 4; each pass adds one scene, so 4
iterations always suffice. -/
def padLoop (characterDNA : CharacterDNA) : Nat → List Scene → List Scene
  | 0, scenes => scenes
  | fuel + 1, scenes =>
    if scenes.length < 4 then
      padLoop characterDNA fuel (scenes ++ [padScene characterDNA (scenes.length + 1)])
    else scenes

def padScenes (characterDNA : CharacterDNA) (scenes : List Scene) : List Scene :=
  padLoop characterDNA 4 scenes

/-- splitTextIntoChunks from the source: split into sentences on [.!?]+,
keep those with non-empty trim, distribute them into numChunks buckets of
ceil(count / numChunks) sentences, rejoin each non-empty bucket with a dot
and space and a trailing dot. -/
def splitTextIntoChunks (text : List Char) (numChunks : Nat) : List (List Char) :=
  let sentences := (splitPunct text).filter (fun s => (jsTrim s).length > 0)
  let chunkSize := (sentences.length + numChunks - 1) / numChunks
  (List.range numChunks).filterMap (fun i =>
    let start := i * chunkSize
    let stop := min (start + chunkSize) sentences.length
    let chunk := jsTrim (joinDotSpace ((sentences.drop start).take (stop - start)))
    if chunk.length > 0 then some (chunk ++ ['.']) else none)

/-- A last-resort chunk scene of fallbackParseStory (scene i+1 from chunk
i). -/
def mkChunkScene (characterDNA : CharacterDNA) (n : Nat) (chunk : List Char) : Scene :=
  { id := sceneId n
    number := n
    title := "Scene ".toList ++ natChars n
    content := chunk
    description := some chunk
    characterName := characterDNA.name
    storyboardPrompt :=
      generateStoryboardPrompt ("Scene ".toList ++ natChars n) chunk characterDNA }

def fbChunkScenes (characterDNA : CharacterDNA) : Nat → List (List Char) → List Scene
  | _, [] => []
  | n, c :: cs => mkChunkScene characterDNA (n + 1) c :: fbChunkScenes characterDNA (n + 1) cs

/-- The line scan of fallbackParseStory: state is the collected scenes, the
scene currently accumulating content (if any), and the running scene
count.  A header line flushes the current scene (when its content trims
non-empty), starts a new one; other lines append to the current scene
content (space-joined).  At end of input the current scene is flushed under
the same condition. -/
def fbScan (characterDNA : CharacterDNA) :
    List (List Char) → List Scene → Option Scene → Nat → List Scene
  | [], scenes, cur, _ =>
    match cur with
    | some sc => if (jsTrim sc.content).length > 0 then scenes ++ [sc] else scenes
    | none => scenes
  | line :: rest, scenes, cur, cnt =>
    let trimmedLine := jsTrim line
    if matchHeaderNC trimmedLine then
      let scenes' :=
        match cur with
        | some sc => if (jsTrim sc.content).length > 0 then scenes ++ [sc] else scenes
        | none => scenes
      let cnt' := cnt + 1
      let stripped := stripHeader (stripHeader trimmedLine)
      let title := if stripped.length = 0 then "Scene ".toList ++ natChars cnt' else stripped
      fbScan characterDNA rest scenes'
        (some { id := sceneId cnt'
                number := cnt'
                title := title
                content := []
                description := some []
                characterName := characterDNA.name
                storyboardPrompt := [] }) cnt'
    else
      match cur with
      | some sc =>
        if trimmedLine.length > 0 then
          fbScan characterDNA rest scenes
            (some { sc with
                    content := sc.content ++
                      (if sc.content.length = 0 then [] else [' ']) ++ trimmedLine }) cnt
        else fbScan characterDNA rest scenes cur cnt
      | none => fbScan characterDNA rest scenes cur cnt

/-- The per-scene update fallbackParseStory applies to every scene it
collected: description is set to the content and the storyboard prompt is
recomputed. -/
def descUpdate (characterDNA : CharacterDNA) (sc : Scene) : Scene :=
  { sc with
    description := some sc.content
    storyboardPrompt := generateStoryboardPrompt sc.title sc.content characterDNA }

/-- fallbackParseStory from the source: line scan; if it finds nothing,
last-resort chunk split; then every scene gets description = content and a
recomputed storyboard prompt; result capped at 4 scenes and tagged
fallbackParsed. -/
def fallbackParseStory (storyText : List Char) (characterDNA : CharacterDNA) : Story :=
  let lines := (splitOnNl storyText).filter (fun l => (jsTrim l).length > 0)
  let scenes := fbScan characterDNA lines [] none 0
  let scenes :=
    if scenes.length = 0 then
      fbChunkScenes characterDNA 0 (splitTextIntoChunks storyText 4)
    else scenes
  let scenes := scenes.map (descUpdate characterDNA)
  { title := adventureTitle characterDNA
    scenes := scenes.take 4
    totalScenes := min scenes.length 4
    character := characterDNA
    fallbackParsed := true }

/-- The marker-split parts fed to the primary loop: the split on the scene
marker, minus a leading part that trims empty. -/
def primaryParts (storyText : List Char) : List (List Char) :=
  if (jsTrim ((splitScene storyText).headD [])).length = 0
    then (splitScene storyText).tail else splitScene storyText

/-- parseStoryIntoScenes from the source: guard for short text, primary
marker split (skipping a leading empty part), fallback when the primary
strategy yields nothing, then normalization to exactly 4 scenes. -/
def parseStoryIntoScenes (storyText : List Char) (characterDNA : CharacterDNA) : Story :=
  if storyText.length < 50 then createEmergencyFallback characterDNA storyText
  else
    let scenes := primLoop characterDNA (primaryParts storyText) []
    if scenes.length = 0 then fallbackParseStory storyText characterDNA
    else
      let scenes2 :=
        if scenes.length > 4 then scenes.take 4
        else if scenes.length < 4 then padScenes characterDNA scenes
        else scenes
      { title := adventureTitle characterDNA
        scenes := scenes2
        totalScenes := 4
        character := characterDNA }

/-! ## The orchestrator: generateStory with retry -/

def retryableMessages : List (List Char) :=
  ["overloaded".toList, "service unavailable".toList, "503".toList,
   "temporarily unavailable".toList, "rate limit".toList, "quota exceeded".toList,
   "timed out".toList, "timeout".toList]

/-- isRetryableError from the source: the lower-cased message contains one
of the retryable keywords. -/
def isRetryableError (msg : List Char) : Bool :=
  retryableMessages.any (fun m => containsSub m (toLowerList msg))

/-- The inline emergency story built by generateStory when
parseStoryIntoScenes throws (first 500 characters of the raw text plus an
ellipsis). -/
def crashFallbackStory (characterDNA : CharacterDNA) (storyText : List Char) : Story :=
  let c := storyText.take (min 500 storyText.length) ++ "...".toList
  { title := adventureTitle characterDNA
    scenes := [{ id := "scene_1".toList
                 number := 1
                 title := "The Adventure Begins".toList
                 content := c
                 description := some c
                 characterName := characterDNA.name
                 storyboardPrompt :=
                   characterDNA.name ++ " begins an adventure, ".toList ++ storyText.take 100 }]
    totalScenes := 1
    character := characterDNA
    emergencyFallback := true }

def maxRetries : Nat := 3

/-- The successful GenerationResult assembled by generateStory. -/
def mkGenerationResult (genre : List Char) (characterDNA : CharacterDNA)
    (storyText : List Char) (parsedStory : Story) (attempt : Nat) : GenerationResult :=
  { success := true
    story := parsedStory
    rawText := storyText
    metadata := { genre := genre
                  character := characterDNA.name
                  estimatedReadTime := (storyText.length + 999) / 1000
                  sceneCount := parsedStory.scenes.length
                  generatedBy := "gemini-2.0-flash".toList
                  attempt := attempt } }

/-- The terminal error message of generateStory. -/
def failureMessage (attempt : Nat) (msg : List Char) : List Char :=
  "Story generation failed after ".toList ++ natChars attempt ++ " attempts: ".toList ++ msg

/-- The retry loop of generateStory.  The model client is a function from
the attempt number to either the raw story text or an error message; the
parseCrash oracle records on which attempts the try/catch around
parseStoryIntoScenes takes its catch branch.  An error at the last attempt,
or a non-retryable error, raises the terminal failure message; otherwise
the next attempt runs. -/
def generateStoryAux (client : Nat → Except (List Char) (List Char))
    (parseCrash : Nat → Bool) (genre : List Char) (characterDNA : CharacterDNA) :
    Nat → Nat → Except (List Char) GenerationResult
  | _, 0 => Except.error []
  | attempt, fuel + 1 =>
    match client attempt with
    | Except.ok storyText =>
      let parsedStory :=
        if parseCrash attempt then crashFallbackStory characterDNA storyText
        else parseStoryIntoScenes storyText characterDNA
      Except.ok (mkGenerationResult genre characterDNA storyText parsedStory attempt)
    | Except.error msg =>
      if attempt = maxRetries || !(isRetryableError msg) then
        Except.error (failureMessage attempt msg)
      else generateStoryAux client parseCrash genre characterDNA (attempt + 1) fuel

def generateStory (client : Nat → Except (List Char) (List Char))
    (parseCrash : Nat → Bool) (genre : List Char) (characterDNA : CharacterDNA) :
    Except (List Char) GenerationResult :=
  generateStoryAux client parseCrash genre characterDNA 1 maxRetries

/-! ## Lemmas about trimming -/

theorem mem_dropWhile_of_mem {p : Char → Bool} {c : Char} {l : List Char}
    (h : c ∈ l) (hc : p c = false) : c ∈ l.dropWhile p := by
  induction l with
  | nil => simp at h
  | cons a t ih =>
    rw [List.dropWhile_cons]
    rcases List.mem_cons.mp h with rfl | ht
    · simp [hc]
    · by_cases hp : p a = true
      · simp [hp]; exact ih ht
      · simp [hp] at *; right; exact ht

theorem mem_trimRight_of_mem {c : Char} {l : List Char}
    (h : c ∈ l) (hc : isWsChar c = false) : c ∈ trimRight l := by
  induction l with
  | nil => simp at h
  | cons a t ih =>
    rcases List.mem_cons.mp h with rfl | ht
    · unfold trimRight
      cases htr : trimRight t with
      | nil => simp [hc]
      | cons x xs => simp
    · unfold trimRight
      cases htr : trimRight t with
      | nil => exact absurd (htr ▸ ih ht) (by simp)
      | cons x xs => simp [htr ▸ ih ht]

theorem mem_jsTrim_of_mem {c : Char} {l : List Char}
    (h : c ∈ l) (hc : isWsChar c = false) : c ∈ jsTrim l :=
  mem_dropWhile_of_mem (mem_trimRight_of_mem h hc) hc

theorem jsTrim_ne_nil {c : Char} {l : List Char}
    (h : c ∈ l) (hc : isWsChar c = false) : jsTrim l ≠ [] :=
  List.ne_nil_of_mem (mem_jsTrim_of_mem h hc)

theorem trimRight_eq_nil_of_all_ws {l : List Char}
    (h : ∀ c ∈ l, isWsChar c = true) : trimRight l = [] := by
  induction l with
  | nil => rfl
  | cons a t ih =>
    unfold trimRight
    rw [ih (fun c hc => h c (List.mem_cons_of_mem a hc))]
    simp [h a (List.mem_cons_self a t)]

theorem jsTrim_eq_nil_of_all_ws {l : List Char}
    (h : ∀ c ∈ l, isWsChar c = true) : jsTrim l = [] := by
  unfold jsTrim
  rw [trimRight_eq_nil_of_all_ws h]
  rfl

theorem trimRight_cons (c : Char) (t : List Char) :
    trimRight (c :: t) =
      match trimRight t with
      | [] => if isWsChar c then [] else [c]
      | r => c :: r := rfl

theorem trimRight_append_nonws {u v : List Char} (c : Char)
    (hc : c ∈ v) (hw : isWsChar c = false) : trimRight (u ++ v) = u ++ trimRight v := by
  induction u with
  | nil => rfl
  | cons a u' ih =>
    show trimRight (a :: (u' ++ v)) = a :: (u' ++ trimRight v)
    rw [trimRight_cons, ih]
    have hne : u' ++ trimRight v ≠ [] := by
      intro h0
      exact List.ne_nil_of_mem (mem_trimRight_of_mem hc hw) (List.append_eq_nil.mp h0).2
    cases h' : u' ++ trimRight v with
    | nil => exact absurd h' hne
    | cons x xs => rfl

theorem trimRight_append_ws {l : List Char} {c : Char} (hw : isWsChar c = true) :
    trimRight (l ++ [c]) = trimRight l := by
  induction l with
  | nil => simp [trimRight, hw]
  | cons a l' ih =>
    show trimRight (a :: (l' ++ [c])) = trimRight (a :: l')
    unfold trimRight
    rw [ih]

theorem trimLeft_cons_ws {c : Char} {l : List Char} (hw : isWsChar c = true) :
    trimLeft (c :: l) = trimLeft l := by
  simp [trimLeft, List.dropWhile_cons, hw]

theorem trimLeft_cons_nonws {c : Char} {l : List Char} (hw : isWsChar c = false) :
    trimLeft (c :: l) = c :: l := by
  simp [trimLeft, List.dropWhile_cons, hw]

theorem trimLeft_append_nonws {u v : List Char} (c : Char)
    (hc : c ∈ u) (hw : isWsChar c = false) : trimLeft (u ++ v) = trimLeft u ++ v := by
  induction u with
  | nil => simp at hc
  | cons a u' ih =>
    by_cases ha : isWsChar a = true
    · have hcu' : c ∈ u' := by
        rcases List.mem_cons.mp hc with rfl | h
        · exact absurd ha (by simp [hw])
        · exact h
      show trimLeft (a :: (u' ++ v)) = trimLeft (a :: u') ++ v
      rw [trimLeft_cons_ws ha, trimLeft_cons_ws ha, ih hcu']
    · simp only [Bool.not_eq_true] at ha
      show trimLeft (a :: (u' ++ v)) = trimLeft (a :: u') ++ v
      rw [trimLeft_cons_nonws ha, trimLeft_cons_nonws ha]
      simp

theorem jsTrim_trimLeft (l : List Char) : jsTrim (trimLeft l) = jsTrim l := by
  induction l with
  | nil => rfl
  | cons c t ih =>
    by_cases hw : isWsChar c = true
    · rw [trimLeft_cons_ws hw, ih]
      show jsTrim t = trimLeft (trimRight (c :: t))
      unfold trimRight
      cases h : trimRight t with
      | nil =>
        rw [hw]
        show jsTrim t = trimLeft []
        unfold jsTrim
        rw [h]
      | cons x xs =>
        show jsTrim t = trimLeft (c :: x :: xs)
        rw [trimLeft_cons_ws hw]
        unfold jsTrim
        rw [h]
    · simp only [Bool.not_eq_true] at hw
      rw [trimLeft_cons_nonws hw]

theorem trimRight_trimRight (l : List Char) : trimRight (trimRight l) = trimRight l := by
  induction l with
  | nil => rfl
  | cons c t ih =>
    rw [trimRight_cons]
    cases h : trimRight t with
    | nil =>
      by_cases hw : isWsChar c = true
      · simp [hw]
        rfl
      · simp only [Bool.not_eq_true] at hw
        simp [hw, trimRight]
    | cons x xs =>
      show trimRight (c :: x :: xs) = c :: x :: xs
      have hxs : trimRight (x :: xs) = x :: xs := by rw [← h, ih, h]
      rw [trimRight_cons, hxs]

theorem jsTrim_trimRight (l : List Char) : jsTrim (trimRight l) = jsTrim l := by
  unfold jsTrim
  rw [trimRight_trimRight]

/-! ## Lemmas about line splitting and joining -/

theorem consHead_ne_nil (c : Char) (l : List (List Char)) : consHead c l ≠ [] := by
  cases l <;> simp [consHead]

theorem splitOnNl_ne_nil (l : List Char) : splitOnNl l ≠ [] := by
  induction l with
  | nil => simp [splitOnNl]
  | cons c t ih =>
    by_cases h : c = '\n'
    · simp [splitOnNl, h]
    · simp [splitOnNl, h, consHead_ne_nil]

theorem joinNl_cons {a : List Char} {s : List (List Char)} (h : s ≠ []) :
    joinNl (a :: s) = a ++ '\n' :: joinNl s := by
  cases s with
  | nil => exact absurd rfl h
  | cons x xs => rfl

theorem joinNl_splitOnNl (l : List Char) : joinNl (splitOnNl l) = l := by
  induction l with
  | nil => rfl
  | cons c t ih =>
    by_cases h : c = '\n'
    · subst h
      rw [show splitOnNl ('\n' :: t) = [] :: splitOnNl t from by simp [splitOnNl],
        joinNl_cons (splitOnNl_ne_nil t)]
      simp [ih]
    · rw [show splitOnNl (c :: t) = consHead c (splitOnNl t) from by simp [splitOnNl, h]]
      cases hs : splitOnNl t with
      | nil => exact absurd hs (splitOnNl_ne_nil t)
      | cons x xs =>
        rw [hs] at ih
        cases xs with
        | nil =>
          simp [consHead, joinNl] at *
          exact ih
        | cons y ys =>
          have hys : (y :: ys) ≠ [] := by simp
          rw [joinNl_cons hys] at ih
          show joinNl ((c :: x) :: y :: ys) = c :: t
          rw [joinNl_cons hys, List.cons_append, ih]

theorem splitOnNl_no_nl {x : List Char} (h : '\n' ∉ x) : splitOnNl x = [x] := by
  induction x with
  | nil => rfl
  | cons c t ih =>
    have hc : c ≠ '\n' := fun hh => h (hh ▸ List.mem_cons_self c t)
    have ht : '\n' ∉ t := fun hh => h (List.mem_cons_of_mem c hh)
    rw [show splitOnNl (c :: t) = consHead c (splitOnNl t) from by simp [splitOnNl, hc],
      ih ht]
    rfl

theorem splitOnNl_append_nl {x y : List Char} (h : '\n' ∉ x) :
    splitOnNl (x ++ '\n' :: y) = x :: splitOnNl y := by
  induction x with
  | nil => simp [splitOnNl]
  | cons c t ih =>
    have hc : c ≠ '\n' := fun hh => h (hh ▸ List.mem_cons_self c t)
    have ht : '\n' ∉ t := fun hh => h (List.mem_cons_of_mem c hh)
    show splitOnNl (c :: (t ++ '\n' :: y)) = (c :: t) :: splitOnNl y
    rw [show splitOnNl (c :: (t ++ '\n' :: y)) = consHead c (splitOnNl (t ++ '\n' :: y)) from by
        simp [splitOnNl, hc],
      ih ht]
    rfl

/-! ## Lemmas about the scene-marker split -/

theorem matchMarker_nil : matchMarker [] = none := by decide

theorem splitSceneAux_nil (fuel : Nat) (acc : List Char) :
    splitSceneAux fuel [] acc = [acc.reverse] := by
  cases fuel with
  | zero => simp [splitSceneAux]
  | succ f => simp [splitSceneAux, matchMarker_nil]

theorem splitSceneAux_marker {cs rest : List Char} (h : matchMarker cs = some rest)
    (fuel : Nat) (acc : List Char) :
    splitSceneAux (fuel + 1) cs acc = acc.reverse :: splitSceneAux fuel rest [] := by
  simp [splitSceneAux, h]

/-- Scanning over a block that contains no marker start (even jointly with
the following text) just accumulates its characters. -/
theorem splitSceneAux_extend : ∀ (p : List Char) (rest acc : List Char) (fuel : Nat),
    p.length + rest.length ≤ fuel →
    (∀ s, s ≠ [] → s <:+ p → matchMarker (s ++ rest) = none) →
    splitSceneAux fuel (p ++ rest) acc = splitSceneAux (fuel - p.length) rest (p.reverse ++ acc)
  | [], rest, acc, fuel, _, _ => by simp
  | c :: p', rest, acc, fuel, hfuel, hnone => by
    have hf1 : 1 ≤ fuel := by
      have := hfuel
      simp [List.length_cons] at this
      omega
    obtain ⟨f, rfl⟩ : ∃ f, fuel = f + 1 := ⟨fuel - 1, by omega⟩
    have hm : matchMarker (c :: (p' ++ rest)) = none := by
      have := hnone (c :: p') (by simp) (List.suffix_refl _)
      simpa using this
    have step : splitSceneAux (f + 1) ((c :: p') ++ rest) acc =
        splitSceneAux f (p' ++ rest) (c :: acc) := by
      simp [splitSceneAux, hm]
    have harith : f + 1 - (c :: p').length = f - p'.length := by
      simp [List.length_cons]
    rw [step,
      splitSceneAux_extend p' rest (c :: acc) f
        (by simp at hfuel ⊢; omega)
        (fun s hs hsfx => hnone s hs (hsfx.trans (List.suffix_cons c p'))),
      harith]
    simp [List.reverse_cons, List.append_assoc]

/-- With no marker anywhere in the text, the split returns the whole text as
its only part. -/
theorem splitScene_no_marker {text : List Char} (h : hasSceneMarker text = false) :
    splitScene text = [text] := by
  have hnone : ∀ s, s ≠ [] → s <:+ text → matchMarker (s ++ ([] : List Char)) = none := by
    intro s _ hsfx
    rw [List.append_nil]
    have h3 : text.tails.any (fun t => (matchMarker t).isSome) = false := h
    have hmem : s ∈ text.tails := (List.mem_tails s text).mpr hsfx
    have h2 := List.any_eq_false.mp h3 s hmem
    cases hm : matchMarker s with
    | none => rfl
    | some r => rw [hm] at h2; simp at h2
  have := splitSceneAux_extend text [] [] text.length (by simp) hnone
  simp at this
  rw [splitScene, this, splitSceneAux_nil]
  simp

/-! ## Digit and marker-literal lemmas -/

theorem toDigits_lt_ten : ∀ n, n < 10 → Nat.toDigits 10 n = [Nat.digitChar n] := by decide

theorem digitChar_isDigit : ∀ n, n < 10 → (Nat.digitChar n).isDigit = true := by decide

theorem isWsChar_eq_false_of_isDigit {d : Char} (h : d.isDigit = true) :
    isWsChar d = false := by
  by_contra hw
  simp only [Bool.not_eq_false] at hw
  simp only [isWsChar, Bool.or_eq_true, decide_eq_true_eq] at hw
  rcases hw with ((((h1 | h1) | h1) | h1) | h1) | h1 <;> subst h1 <;>
    exact absurd h (by decide)

/-- The literal marker SCENE, space, one digit, colon matches, consuming
exactly itself. -/
theorem matchMarker_literal {d : Char} (hd : d.isDigit = true) (tail : List Char) :
    matchMarker ('S' :: 'C' :: 'E' :: 'N' :: 'E' :: ' ' :: d :: ':' :: tail) = some tail := by
  have h1 : matchCI sceneWord ('S' :: 'C' :: 'E' :: 'N' :: 'E' :: ' ' :: d :: ':' :: tail) =
      some (' ' :: d :: ':' :: tail) := by
    simp [sceneWord, matchCI, Char.toLower]
  have h2 : skipWs1 (' ' :: d :: ':' :: tail) = some (d :: ':' :: tail) := by
    simp [skipWs1, show isWsChar ' ' = true from by decide, List.dropWhile_cons,
      isWsChar_eq_false_of_isDigit hd]
  have h3 : skipDigits1 (d :: ':' :: tail) = some (':' :: tail) := by
    simp [skipDigits1, hd, List.dropWhile_cons, show (':' : Char).isDigit = false from by decide]
  have h4 : expectColon (':' :: tail) = some tail := by simp [expectColon]
  simp [matchMarker, h1, h2, h3, h4]

/-! ## Well-marked model text

A well-marked text is built from (title, body) pairs, scene i introduced by
the literal marker SCENE i: followed by a space, the title line, and the
body, each block terminated by a newline.  These constructions exist only
to quantify over model outputs; they are not part of the source. -/

/-- The title/body segment of one scene block (what the marker split leaves
of it). -/
def segOf (t b : List Char) : List Char :=
  ' ' :: (t ++ '\n' :: (b ++ ['\n']))

/-- The literal marker of scene n. -/
def markerOf (n : Nat) : List Char :=
  "SCENE ".toList ++ natChars n ++ [':']

/-- Model text with scene blocks numbered from n. -/
def mkMarked : Nat → List (List Char × List Char) → List Char
  | _, [] => []
  | n, (t, b) :: rest => markerOf n ++ segOf t b ++ mkMarked (n + 1) rest

/-- No scene-marker match begins inside seg, even jointly with the text
that follows it. -/
def segMarkerFree (seg rest : List Char) : Bool :=
  seg.tails.all (fun s => s.isEmpty || (matchMarker (s ++ rest)).isNone)

/-- All title/body segments of a well-marked text are marker-free. -/
def mkMarkedFree : Nat → List (List Char × List Char) → Bool
  | _, [] => true
  | n, (t, b) :: rest =>
    segMarkerFree (segOf t b) (mkMarked (n + 1) rest) && mkMarkedFree (n + 1) rest

theorem segMarkerFree_spec {seg rest : List Char} (h : segMarkerFree seg rest = true) :
    ∀ s, s ≠ [] → s <:+ seg → matchMarker (s ++ rest) = none := by
  intro s hs hsfx
  have hmem : s ∈ seg.tails := (List.mem_tails s seg).mpr hsfx
  have := List.all_eq_true.mp h s hmem
  rcases (Bool.or_eq_true _ _).mp this with h1 | h1
  · exact absurd (List.isEmpty_iff.mp h1) hs
  · cases hm : matchMarker (s ++ rest) with
    | none => rfl
    | some r => rw [hm] at h1; simp at h1

theorem matchMarker_markerOf {n : Nat} (h1 : 1 ≤ n) (h9 : n ≤ 9) (tail : List Char) :
    matchMarker (markerOf n ++ tail) = some tail := by
  have hd : Nat.toDigits 10 n = [Nat.digitChar n] := toDigits_lt_ten n (by omega)
  have hdig : (Nat.digitChar n).isDigit = true := digitChar_isDigit n (by omega)
  have : markerOf n ++ tail =
      'S' :: 'C' :: 'E' :: 'N' :: 'E' :: ' ' :: Nat.digitChar n :: ':' :: tail := by
    simp [markerOf, natChars, hd]
  rw [this, matchMarker_literal hdig]

theorem mkMarked_length_pos (n : Nat) (t b : List Char)
    (rest : List (List Char × List Char)) :
    0 < (mkMarked n ((t, b) :: rest)).length := by
  simp [mkMarked, markerOf]

/-- Splitting a well-marked text yields the empty leading part followed by
exactly the title/body segments, in order. -/
theorem splitSceneAux_mkMarked :
    ∀ (pairs : List (List Char × List Char)) (n : Nat) (acc : List Char) (fuel : Nat),
    1 ≤ n → n + pairs.length ≤ 10 →
    (mkMarked n pairs).length ≤ fuel →
    mkMarkedFree n pairs = true →
    splitSceneAux fuel (mkMarked n pairs) acc =
      acc.reverse :: pairs.map (fun p => segOf p.1 p.2)
  | [], n, acc, fuel, _, _, _, _ => by
    simp [mkMarked, splitSceneAux_nil]
  | (t, b) :: rest, n, acc, fuel, h1, h10, hfuel, hfree => by
    obtain ⟨f, rfl⟩ : ∃ f, fuel = f + 1 := by
      refine ⟨fuel - 1, ?_⟩
      have := mkMarked_length_pos n t b rest
      omega
    have hfree1 : segMarkerFree (segOf t b) (mkMarked (n + 1) rest) = true :=
      ((Bool.and_eq_true _ _).mp (by simpa [mkMarkedFree] using hfree)).1
    have hfree2 : mkMarkedFree (n + 1) rest = true :=
      ((Bool.and_eq_true _ _).mp (by simpa [mkMarkedFree] using hfree)).2
    have hm : matchMarker (mkMarked n ((t, b) :: rest)) =
        some (segOf t b ++ mkMarked (n + 1) rest) := by
      rw [show mkMarked n ((t, b) :: rest) =
          markerOf n ++ (segOf t b ++ mkMarked (n + 1) rest) from by
        simp [mkMarked, List.append_assoc]]
      exact matchMarker_markerOf h1 (by simp at h10; omega) _
    rw [splitSceneAux_marker hm f acc]
    have hlen : (segOf t b).length + (mkMarked (n + 1) rest).length ≤ f := by
      have : (mkMarked n ((t, b) :: rest)).length =
          (markerOf n).length + (segOf t b).length + (mkMarked (n + 1) rest).length := by
        simp [mkMarked]
        omega
      have hmk : 1 ≤ (markerOf n).length := by simp [markerOf]
      omega
    rw [splitSceneAux_extend (segOf t b) (mkMarked (n + 1) rest) [] f hlen
      (segMarkerFree_spec hfree1)]
    rw [splitSceneAux_mkMarked rest (n + 1) ((segOf t b).reverse ++ []) (f - (segOf t b).length)
      (by omega) (by simp at h10 ⊢; omega) (by omega) hfree2]
    simp

/-- splitScene on a well-marked text numbered from 1. -/
theorem splitScene_mkMarked {pairs : List (List Char × List Char)}
    (h10 : pairs.length ≤ 9) (hfree : mkMarkedFree 1 pairs = true) :
    splitScene (mkMarked 1 pairs) = [] :: pairs.map (fun p => segOf p.1 p.2) := by
  have := splitSceneAux_mkMarked pairs 1 [] (mkMarked 1 pairs).length
    (by omega) (by omega) (le_refl _) hfree
  simpa [splitScene] using this

/-! ## The primary strategy on well-marked segments -/

/-- A usable (title, body) pair: both trim non-empty, title on one line. -/
def goodPairB (p : List Char × List Char) : Bool :=
  !(jsTrim p.1).isEmpty && !(jsTrim p.2).isEmpty && !(p.1.contains '\n')

theorem exists_nonws_of_jsTrim_ne_nil {l : List Char} (h : jsTrim l ≠ []) :
    ∃ c ∈ l, isWsChar c = false := by
  by_contra hall
  push_neg at hall
  exact h (jsTrim_eq_nil_of_all_ws (fun c hc => by
    have := hall c hc
    simpa using this))

theorem goodPairB_spec {p : List Char × List Char} (h : goodPairB p = true) :
    jsTrim p.1 ≠ [] ∧ jsTrim p.2 ≠ [] ∧ '\n' ∉ p.1 := by
  simp only [goodPairB, Bool.and_eq_true, Bool.not_eq_true'] at h
  obtain ⟨⟨h1, h2⟩, h3⟩ := h
  refine ⟨?_, ?_, ?_⟩
  · intro he
    rw [he] at h1
    simp at h1
  · intro he
    rw [he] at h2
    simp at h2
  · intro hmem
    have h4 : p.1.elem '\n' = false := h3
    rw [List.elem_iff.mpr hmem] at h4
    simp at h4

theorem nl_not_mem_trimLeft {t : List Char} (h : '\n' ∉ t) : '\n' ∉ trimLeft t :=
  fun hmem => h ((List.dropWhile_sublist _).subset hmem)

/-- Trimming a well-marked segment: the leading space and the final newline
go away, leaving the trimmed-left title, a newline, and the trimmed-right
body. -/
theorem jsTrim_segOf {t b : List Char} (ht : jsTrim t ≠ []) (hb : jsTrim b ≠ []) :
    jsTrim (segOf t b) = trimLeft t ++ '\n' :: trimRight b := by
  obtain ⟨ct, hct, hwt⟩ := exists_nonws_of_jsTrim_ne_nil ht
  obtain ⟨cb, hcb, hwb⟩ := exists_nonws_of_jsTrim_ne_nil hb
  have h1 : segOf t b = ((' ' :: t ++ ['\n']) ++ b) ++ ['\n'] := by
    simp [segOf]
  have h2 : trimRight (segOf t b) = (' ' :: t ++ ['\n']) ++ trimRight b := by
    rw [h1, trimRight_append_ws (by decide), trimRight_append_nonws cb hcb hwb]
  show trimLeft (trimRight (segOf t b)) = _
  rw [h2]
  have h3 : (' ' :: t ++ ['\n']) ++ trimRight b = ' ' :: (t ++ '\n' :: trimRight b) := by
    simp
  rw [h3, trimLeft_cons_ws (by decide),
    show t ++ '\n' :: trimRight b = t ++ ('\n' :: trimRight b) from rfl,
    trimLeft_append_nonws ct hct hwt]

/-- The scenes the primary strategy derives from consecutive good pairs,
numbered from n. -/
def scenesFrom (characterDNA : CharacterDNA) : Nat → List (List Char × List Char) → List Scene
  | _, [] => []
  | n, (t, b) :: ps =>
    mkPrimScene characterDNA n (jsTrim t) (jsTrim b) :: scenesFrom characterDNA (n + 1) ps

theorem scenesFrom_length (characterDNA : CharacterDNA) :
    ∀ (n : Nat) (pairs : List (List Char × List Char)),
    (scenesFrom characterDNA n pairs).length = pairs.length
  | _, [] => rfl
  | n, (t, b) :: ps => by
    simp [scenesFrom, scenesFrom_length characterDNA (n + 1) ps]

theorem primLoop_cons_stop {characterDNA : CharacterDNA} {p : List Char}
    {ps : List (List Char)} {acc : List Scene} (h : ¬acc.length < 4) :
    primLoop characterDNA (p :: ps) acc = acc := by
  simp [primLoop, h]

theorem primLoop_cons_push {characterDNA : CharacterDNA} {p : List Char}
    {ps : List (List Char)} {acc : List Scene} (h4 : acc.length < 4)
    (hpart : ¬(jsTrim p).length = 0)
    (htitle : (jsTrim ((splitOnNl (jsTrim p)).headD [])).length > 0)
    (hcontent : (jsTrim (joinNl (splitOnNl (jsTrim p)).tail)).length > 0) :
    primLoop characterDNA (p :: ps) acc =
      primLoop characterDNA ps (acc ++
        [mkPrimScene characterDNA (acc.length + 1)
          (jsTrim ((splitOnNl (jsTrim p)).headD []))
          (jsTrim (joinNl (splitOnNl (jsTrim p)).tail))]) := by
  simp only [primLoop, if_pos h4, if_neg hpart]
  have hcond : (decide (0 < (jsTrim ((splitOnNl (jsTrim p)).headD [])).length) &&
      decide (0 < (jsTrim (joinNl (splitOnNl (jsTrim p)).tail)).length)) = true := by
    rw [Bool.and_eq_true, decide_eq_true_eq, decide_eq_true_eq]
    exact ⟨htitle, hcontent⟩
  rw [if_pos hcond]

/-- The primary loop over well-marked segments: it turns each good pair into
its scene until 4 scenes are collected. -/
theorem primLoop_map_seg (characterDNA : CharacterDNA) :
    ∀ (pairs : List (List Char × List Char)) (acc : List Scene),
    acc.length ≤ 4 →
    (∀ p ∈ pairs, goodPairB p = true) →
    primLoop characterDNA (pairs.map (fun p => segOf p.1 p.2)) acc =
      acc ++ scenesFrom characterDNA (acc.length + 1) (pairs.take (4 - acc.length))
  | [], acc, _, _ => by simp [primLoop, scenesFrom]
  | (t, b) :: ps, acc, hle, hgood => by
    by_cases h4 : acc.length < 4
    · obtain ⟨ht, hb, hnl⟩ := goodPairB_spec (hgood (t, b) (List.mem_cons_self _ _))
      have hseg : jsTrim (segOf t b) = trimLeft t ++ '\n' :: trimRight b :=
        jsTrim_segOf ht hb
      have hlines : splitOnNl (jsTrim (segOf t b)) =
          trimLeft t :: splitOnNl (trimRight b) := by
        rw [hseg]
        exact splitOnNl_append_nl (nl_not_mem_trimLeft hnl)
      have htitle' : jsTrim ((splitOnNl (jsTrim (segOf t b))).headD []) = jsTrim t := by
        rw [hlines]
        simp [jsTrim_trimLeft]
      have hcontent' : jsTrim (joinNl (splitOnNl (jsTrim (segOf t b))).tail) = jsTrim b := by
        rw [hlines]
        simp [joinNl_splitOnNl, jsTrim_trimRight]
      have hpart : ¬(jsTrim (segOf t b)).length = 0 := by
        rw [hseg]
        simp
      have step := @primLoop_cons_push characterDNA
        (segOf t b) (ps.map (fun p => segOf p.1 p.2)) acc h4 hpart
        (by rw [htitle']; exact List.length_pos.mpr ht)
        (by rw [hcontent']; exact List.length_pos.mpr hb)
      rw [List.map_cons, step, htitle', hcontent']
      rw [primLoop_map_seg characterDNA ps
        (acc ++ [mkPrimScene characterDNA (acc.length + 1) (jsTrim t) (jsTrim b)])
        (by simp; omega)
        (fun p hp => hgood p (List.mem_cons_of_mem _ hp))]
      have hk : 4 - acc.length = (4 - (acc.length + 1)) + 1 := by omega
      rw [hk, List.take_succ_cons]
      simp [scenesFrom, List.append_assoc]
    · rw [List.map_cons, primLoop_cons_stop h4]
      have h0 : 4 - acc.length = 0 := by omega
      rw [h0]
      simp [scenesFrom]

/-! ## Scene-numbering invariants -/

/-- The scenes of a list are numbered consecutively from 1, with matching
ids. -/
def goodList (l : List Scene) : Prop :=
  ∀ (i : Nat) (h : i < l.length), l[i].number = i + 1 ∧ l[i].id = sceneId (i + 1)

theorem goodList_nil : goodList [] := by
  intro i h
  simp at h

theorem goodList_append {l : List Scene} {sc : Scene} (h : goodList l)
    (hn : sc.number = l.length + 1) (hid : sc.id = sceneId (l.length + 1)) :
    goodList (l ++ [sc]) := by
  intro i hi
  have hi2 : i < l.length + 1 := by
    simpa using hi
  by_cases hlt : i < l.length
  · rw [show (l ++ [sc])[i] = l[i] from List.getElem_append_left hlt]
    exact h i hlt
  · have hieq : i = l.length := by omega
    subst hieq
    rw [List.getElem_append_right (le_refl _)]
    simpa using ⟨hn, hid⟩

theorem goodList_take {l : List Scene} (h : goodList l) (n : Nat) :
    goodList (l.take n) := by
  intro i hi
  have hlt : i < l.length := by
    have := List.length_take n l
    omega
  rw [show (l.take n)[i] = l[i] from List.getElem_take l]
  exact h i hlt

theorem primLoop_goodList (characterDNA : CharacterDNA) :
    ∀ (ps : List (List Char)) (acc : List Scene), goodList acc →
    goodList (primLoop characterDNA ps acc)
  | [], acc, h => by simpa [primLoop] using h
  | p :: ps, acc, h => by
    by_cases h4 : acc.length < 4
    · simp only [primLoop, if_pos h4]
      by_cases hp : (jsTrim p).length = 0
      · rw [if_pos hp]
        exact primLoop_goodList characterDNA ps acc h
      · rw [if_neg hp]
        by_cases hg : (decide (0 < (jsTrim ((splitOnNl (jsTrim p)).headD [])).length) &&
            decide (0 < (jsTrim (joinNl (splitOnNl (jsTrim p)).tail)).length)) = true
        · rw [if_pos hg]
          exact primLoop_goodList characterDNA ps _
            (goodList_append h rfl rfl)
        · rw [if_neg hg]
          exact primLoop_goodList characterDNA ps acc h
    · rw [primLoop_cons_stop h4]
      exact h

theorem primLoop_length_le (characterDNA : CharacterDNA) :
    ∀ (ps : List (List Char)) (acc : List Scene), acc.length ≤ 4 →
    (primLoop characterDNA ps acc).length ≤ 4
  | [], acc, h => by simpa [primLoop] using h
  | p :: ps, acc, h => by
    by_cases h4 : acc.length < 4
    · simp only [primLoop, if_pos h4]
      by_cases hp : (jsTrim p).length = 0
      · rw [if_pos hp]
        exact primLoop_length_le characterDNA ps acc h
      · rw [if_neg hp]
        by_cases hg : (decide (0 < (jsTrim ((splitOnNl (jsTrim p)).headD [])).length) &&
            decide (0 < (jsTrim (joinNl (splitOnNl (jsTrim p)).tail)).length)) = true
        · rw [if_pos hg]
          exact primLoop_length_le characterDNA ps _ (by simp; omega)
        · rw [if_neg hg]
          exact primLoop_length_le characterDNA ps acc h
    · rw [primLoop_cons_stop h4]
      exact h

theorem padLoop_goodList (characterDNA : CharacterDNA) :
    ∀ (fuel : Nat) (s : List Scene), goodList s →
    goodList (padLoop characterDNA fuel s)
  | 0, s, h => h
  | fuel + 1, s, h => by
    by_cases h4 : s.length < 4
    · simp only [padLoop, if_pos h4]
      exact padLoop_goodList characterDNA fuel _ (goodList_append h rfl rfl)
    · simp only [padLoop, if_neg h4]
      exact h

/-- Closed form of the padding loop: it appends the generic scenes numbered
from length + 1 up to 4. -/
theorem padLoop_closed (characterDNA : CharacterDNA) :
    ∀ (fuel : Nat) (s : List Scene), 4 - s.length ≤ fuel →
    padLoop characterDNA fuel s =
      s ++ (List.range (4 - s.length)).map (fun j => padScene characterDNA (s.length + 1 + j))
  | 0, s, h => by
    have h0 : 4 - s.length = 0 := by omega
    simp [padLoop, h0]
  | fuel + 1, s, h => by
    by_cases h4 : s.length < 4
    · simp only [padLoop, if_pos h4]
      rw [padLoop_closed characterDNA fuel _
        (by simp only [List.length_append, List.length_cons, List.length_nil]; omega)]
      have hlen : (s ++ [padScene characterDNA (s.length + 1)]).length = s.length + 1 := by
        simp
      rw [hlen]
      have hk : 4 - s.length = (4 - (s.length + 1)) + 1 := by omega
      rw [hk, List.range_succ_eq_map, List.map_cons, List.map_map, List.append_assoc]
      simp only [List.cons_append, List.nil_append]
      congr 2
      apply List.map_congr_left
      intro j _
      simp only [Function.comp_apply]
      congr 1
      omega
    · have h0 : 4 - s.length = 0 := by omega
      simp [padLoop, if_neg h4, h0]

theorem padScenes_length {characterDNA : CharacterDNA} {s : List Scene}
    (h : s.length ≤ 4) : (padScenes characterDNA s).length = 4 := by
  rw [padScenes, padLoop_closed characterDNA 4 s (by omega)]
  simp
  omega

theorem fbChunkScenes_spec (characterDNA : CharacterDNA) :
    ∀ (chunks : List (List Char)) (n i : Nat) (h : i < (fbChunkScenes characterDNA n chunks).length),
    (fbChunkScenes characterDNA n chunks)[i].number = n + i + 1 ∧
    (fbChunkScenes characterDNA n chunks)[i].id = sceneId (n + i + 1)
  | [], n, i, h => by simp [fbChunkScenes] at h
  | c :: cs, n, i, h => by
    cases i with
    | zero => simp [fbChunkScenes, mkChunkScene]
    | succ j =>
      have hj : j < (fbChunkScenes characterDNA (n + 1) cs).length := by
        simpa [fbChunkScenes] using h
      have := fbChunkScenes_spec characterDNA cs (n + 1) j hj
      simpa [fbChunkScenes, Nat.add_assoc, Nat.add_comm, Nat.add_left_comm] using this

theorem fbChunkScenes_goodList (characterDNA : CharacterDNA) (chunks : List (List Char)) :
    goodList (fbChunkScenes characterDNA 0 chunks) := by
  intro i h
  have := fbChunkScenes_spec characterDNA chunks 0 i h
  simpa using this

theorem goodList_pairwise {l : List Scene} (h : goodList l) :
    l.Pairwise (fun a b => a.number < b.number) := by
  rw [List.pairwise_iff_get]
  intro i j hij
  have hi := (h i (by omega)).1
  have hj := (h j (by omega)).1
  simp only [List.get_eq_getElem]
  omega

theorem goodList_id_ok {l : List Scene} (h : goodList l) :
    ∀ sc ∈ l, sc.id = sceneId sc.number := by
  intro sc hmem
  obtain ⟨i, hi, rfl⟩ := List.mem_iff_getElem.mp hmem
  rw [(h i hi).1, (h i hi).2]

/-! ## The fallback line scan keeps numbers increasing -/

/-- Invariant of the fbScan state. -/
def fbInv (acc : List Scene) (cur : Option Scene) (cnt : Nat) : Prop :=
  acc.Pairwise (fun a b => a.number < b.number) ∧
  (∀ sc ∈ acc, sc.id = sceneId sc.number ∧ sc.number ≤ cnt) ∧
  (∀ c, cur = some c → c.id = sceneId c.number ∧ c.number = cnt ∧ ∀ a ∈ acc, a.number < cnt)

theorem pairwise_append_one {acc : List Scene} {c : Scene}
    (hp : acc.Pairwise (fun a b => a.number < b.number))
    (hlt : ∀ a ∈ acc, a.number < c.number) :
    (acc ++ [c]).Pairwise (fun a b => a.number < b.number) := by
  rw [List.pairwise_append]
  refine ⟨hp, by simp, ?_⟩
  intro a ha b hb
  rw [List.mem_singleton] at hb
  subst hb
  exact hlt a ha

theorem fbScan_inv (characterDNA : CharacterDNA) :
    ∀ (lines : List (List Char)) (acc : List Scene) (cur : Option Scene) (cnt : Nat),
    fbInv acc cur cnt →
    (fbScan characterDNA lines acc cur cnt).Pairwise (fun a b => a.number < b.number) ∧
    (∀ sc ∈ fbScan characterDNA lines acc cur cnt, sc.id = sceneId sc.number)
  | [], acc, cur, cnt, hinv => by
    obtain ⟨hp, hacc, hcur⟩ := hinv
    cases cur with
    | none =>
      simp only [fbScan]
      exact ⟨hp, fun sc hm => (hacc sc hm).1⟩
    | some c =>
      simp only [fbScan]
      by_cases hflush : (jsTrim c.content).length > 0
      · rw [if_pos hflush]
        obtain ⟨hid, hnum, hlt⟩ := hcur c rfl
        refine ⟨pairwise_append_one hp (fun a ha => by rw [hnum]; exact hlt a ha), ?_⟩
        intro sc hm
        rcases List.mem_append.mp hm with hm | hm
        · exact (hacc sc hm).1
        · rw [List.mem_singleton] at hm
          subst hm
          exact hid
      · rw [if_neg hflush]
        exact ⟨hp, fun sc hm => (hacc sc hm).1⟩
  | line :: rest, acc, cur, cnt, hinv => by
    obtain ⟨hp, hacc, hcur⟩ := hinv
    by_cases hh : matchHeaderNC (jsTrim line) = true
    · have hflushed :
          ∀ (acc' : List Scene),
          acc'.Pairwise (fun a b => a.number < b.number) →
          (∀ sc ∈ acc', sc.id = sceneId sc.number ∧ sc.number ≤ cnt) →
          fbInv acc'
            (some { id := sceneId (cnt + 1), number := cnt + 1,
                    title := if (stripHeader (stripHeader (jsTrim line))).length = 0
                      then "Scene ".toList ++ natChars (cnt + 1)
                      else stripHeader (stripHeader (jsTrim line)),
                    content := [], description := some [],
                    characterName := characterDNA.name, storyboardPrompt := [] })
            (cnt + 1) := by
        intro acc' hp' hacc'
        refine ⟨hp', fun sc hm => ⟨(hacc' sc hm).1, by have := (hacc' sc hm).2; omega⟩, ?_⟩
        intro c hc
        cases hc
        refine ⟨rfl, rfl, ?_⟩
        intro a ha
        have := (hacc' a ha).2
        omega
      cases cur with
      | none =>
        simp only [fbScan, if_pos hh]
        exact fbScan_inv characterDNA rest acc _ (cnt + 1) (hflushed acc hp hacc)
      | some c =>
        obtain ⟨hid, hnum, hlt⟩ := hcur c rfl
        by_cases hflush : (jsTrim c.content).length > 0
        · simp only [fbScan, if_pos hh, if_pos hflush]
          refine fbScan_inv characterDNA rest _ _ (cnt + 1) (hflushed _ ?_ ?_)
          · exact pairwise_append_one hp (fun a ha => by rw [hnum]; exact hlt a ha)
          · intro sc hm
            rcases List.mem_append.mp hm with hm | hm
            · exact hacc sc hm
            · rw [List.mem_singleton] at hm
              subst hm
              exact ⟨hid, by omega⟩
        · simp only [fbScan, if_pos hh, if_neg hflush]
          exact fbScan_inv characterDNA rest acc _ (cnt + 1) (hflushed acc hp hacc)
    · cases cur with
      | none =>
        simp only [fbScan, if_neg hh]
        exact fbScan_inv characterDNA rest acc none cnt ⟨hp, hacc, by simp⟩
      | some c =>
        obtain ⟨hid, hnum, hlt⟩ := hcur c rfl
        by_cases hlen : (jsTrim line).length > 0
        · simp only [fbScan, if_neg hh, if_pos hlen]
          refine fbScan_inv characterDNA rest acc _ cnt ⟨hp, hacc, ?_⟩
          intro c' hc'
          cases hc'
          exact ⟨hid, hnum, hlt⟩
        · simp only [fbScan, if_neg hh, if_neg hlen]
          exact fbScan_inv characterDNA rest acc _ cnt ⟨hp, hacc, fun c' hc' => by
            cases hc'
            exact ⟨hid, hnum, hlt⟩⟩

/-! ## Structure of every parsed Story -/

theorem fallbackParseStory_numbering (text : List Char) (characterDNA : CharacterDNA) :
    (fallbackParseStory text characterDNA).scenes.Pairwise (fun a b => a.number < b.number) ∧
    ∀ sc ∈ (fallbackParseStory text characterDNA).scenes, sc.id = sceneId sc.number := by
  have hinv0 : fbInv [] none 0 := ⟨List.Pairwise.nil, by simp, by simp⟩
  have hscan := fbScan_inv characterDNA
    ((splitOnNl text).filter (fun l => (jsTrim l).length > 0)) [] none 0 hinv0
  set scenes0 := fbScan characterDNA
    ((splitOnNl text).filter (fun l => (jsTrim l).length > 0)) [] none 0 with hs0
  have hbase :
      ∀ (sl : List Scene),
      sl.Pairwise (fun a b => a.number < b.number) →
      (∀ sc ∈ sl, sc.id = sceneId sc.number) →
      ((sl.map (descUpdate characterDNA)).take 4).Pairwise
          (fun a b => a.number < b.number) ∧
      ∀ sc ∈ (sl.map (descUpdate characterDNA)).take 4,
        sc.id = sceneId sc.number := by
    intro sl hpw hid
    constructor
    · refine List.Pairwise.sublist (List.take_sublist _ _) ?_
      rw [List.pairwise_map]
      simpa [descUpdate] using hpw
    · intro sc hm
      have hm2 := (List.take_subset _ _) hm
      obtain ⟨sc0, hsc0, rfl⟩ := List.mem_map.mp hm2
      simpa [descUpdate] using hid sc0 hsc0
  by_cases hz : scenes0.length = 0
  · have hchunk := fbChunkScenes_goodList characterDNA (splitTextIntoChunks text 4)
    have h1 := goodList_pairwise hchunk
    have h2 := goodList_id_ok hchunk
    simp only [fallbackParseStory, ← hs0, if_pos hz]
    exact hbase _ h1 h2
  · simp only [fallbackParseStory, ← hs0, if_neg hz]
    exact hbase _ hscan.1 hscan.2

/-- Every Story produced by parseStoryIntoScenes is the emergency fallback,
a fallback parse, or a primary parse whose scene list is consecutively
numbered. -/
theorem parseStoryIntoScenes_cases (text : List Char) (characterDNA : CharacterDNA) :
    parseStoryIntoScenes text characterDNA = createEmergencyFallback characterDNA text ∨
    parseStoryIntoScenes text characterDNA = fallbackParseStory text characterDNA ∨
    ∃ scenes2, goodList scenes2 ∧
      parseStoryIntoScenes text characterDNA =
        { title := adventureTitle characterDNA
          scenes := scenes2
          totalScenes := 4
          character := characterDNA } := by
  by_cases h50 : text.length < 50
  · left
    simp [parseStoryIntoScenes, h50]
  · have hgood : goodList (primLoop characterDNA (primaryParts text) []) :=
      primLoop_goodList characterDNA (primaryParts text) [] goodList_nil
    by_cases hz : (primLoop characterDNA (primaryParts text) []).length = 0
    · right; left
      simp only [parseStoryIntoScenes, if_neg h50, if_pos hz]
    · right; right
      refine ⟨if (primLoop characterDNA (primaryParts text) []).length > 4
          then (primLoop characterDNA (primaryParts text) []).take 4
          else if (primLoop characterDNA (primaryParts text) []).length < 4
            then padScenes characterDNA (primLoop characterDNA (primaryParts text) [])
            else primLoop characterDNA (primaryParts text) [], ?_, ?_⟩
      · by_cases hgt : (primLoop characterDNA (primaryParts text) []).length > 4
        · simp only [if_pos hgt]
          exact goodList_take hgood 4
        · simp only [if_neg hgt]
          by_cases hlt : (primLoop characterDNA (primaryParts text) []).length < 4
          · simp only [if_pos hlt]
            exact padLoop_goodList characterDNA 4 _ hgood
          · simp only [if_neg hlt]
            exact hgood
      · simp only [parseStoryIntoScenes, if_neg h50, if_neg hz]

/-! ## The last-resort chunk splitter -/

theorem splitPunctAux_ne_nil : ∀ (flag : Bool) (l : List Char), splitPunctAux flag l ≠ []
  | _, [] => by simp [splitPunctAux]
  | flag, c :: cs => by
    by_cases hp : isPunctChar c = true
    · cases flag <;> simp [splitPunctAux, hp, splitPunctAux_ne_nil true cs]
    · have hstep : splitPunctAux flag (c :: cs) = consHead c (splitPunctAux false cs) := by
        cases flag <;> simp [splitPunctAux, hp]
      rw [hstep]
      exact consHead_ne_nil c _

/-- Every non-punctuation character of the text lands in some fragment of
the sentence split. -/
theorem mem_splitPunct {c : Char} (hcp : isPunctChar c = false) :
    ∀ (flag : Bool) (l : List Char), c ∈ l →
    ∃ frag ∈ splitPunctAux flag l, c ∈ frag
  | _, [], h => by simp at h
  | flag, a :: t, h => by
    by_cases hp : isPunctChar a = true
    · have hct : c ∈ t := by
        rcases List.mem_cons.mp h with rfl | ht
        · rw [hp] at hcp; simp at hcp
        · exact ht
      obtain ⟨frag, hfrag, hcfrag⟩ := mem_splitPunct hcp true t hct
      cases flag
      · exact ⟨frag, by simpa [splitPunctAux, hp] using List.mem_cons_of_mem [] hfrag, hcfrag⟩
      · exact ⟨frag, by simpa [splitPunctAux, hp] using hfrag, hcfrag⟩
    · have hstep : splitPunctAux flag (a :: t) = consHead a (splitPunctAux false t) := by
        cases flag <;> simp [splitPunctAux, hp]
      rcases List.mem_cons.mp h with rfl | hct
      · cases hs : splitPunctAux false t with
        | nil => exact absurd hs (splitPunctAux_ne_nil false t)
        | cons x xs =>
          exact ⟨c :: x, by simp [hstep, hs, consHead], List.mem_cons_self c x⟩
      · obtain ⟨frag, hfrag, hcfrag⟩ := mem_splitPunct hcp false t hct
        cases hs : splitPunctAux false t with
        | nil => exact absurd hs (splitPunctAux_ne_nil false t)
        | cons x xs =>
          rw [hs] at hfrag
          rcases List.mem_cons.mp hfrag with rfl | hin
          · exact ⟨a :: frag, by simp [hstep, hs, consHead], List.mem_cons_of_mem a hcfrag⟩
          · exact ⟨frag, by simp [hstep, hs, consHead, hin], hcfrag⟩

theorem mem_joinDotSpace {c : Char} :
    ∀ (g : List (List Char)) (x : List Char), x ∈ g → c ∈ x → c ∈ joinDotSpace g
  | [], x, hx, _ => by simp at hx
  | [y], x, hx, hc => by
    rw [List.mem_singleton] at hx
    subst hx
    simpa [joinDotSpace] using hc
  | y :: z :: zs, x, hx, hc => by
    rcases List.mem_cons.mp hx with rfl | hin
    · simp [joinDotSpace, List.mem_append, hc]
    · have := mem_joinDotSpace (z :: zs) x hin hc
      simp [joinDotSpace, this]

/-- A bucket of sentences whose trims are all non-empty joins to a chunk
with non-empty trim (as soon as the bucket is non-empty). -/
theorem jsTrim_joinDotSpace_ne_nil {g : List (List Char)} {s : List Char}
    (hs : s ∈ g) (hne : jsTrim s ≠ []) : jsTrim (joinDotSpace g) ≠ [] := by
  obtain ⟨c, hc, hw⟩ := exists_nonws_of_jsTrim_ne_nil hne
  exact jsTrim_ne_nil (mem_joinDotSpace g s hs hc) hw

/-- The generic chunk builder, with the JS slice bounds rewritten as
take/drop of the bucket size. -/
theorem splitTextIntoChunks_eq (text : List Char) :
    splitTextIntoChunks text 4 =
      (List.range 4).filterMap (fun i =>
        let sentences := (splitPunct text).filter (fun s => (jsTrim s).length > 0)
        let chunkSize := (sentences.length + 4 - 1) / 4
        let chunk := jsTrim (joinDotSpace ((sentences.drop (i * chunkSize)).take chunkSize))
        if chunk.length > 0 then some (chunk ++ ['.']) else none) := by
  unfold splitTextIntoChunks
  apply List.filterMap_congr
  intro i _
  simp only
  have htake : ∀ (sent : List (List Char)) (cs : Nat),
      (sent.drop (i * cs)).take (min (i * cs + cs) sent.length - i * cs) =
      (sent.drop (i * cs)).take cs := by
    intro sent cs
    rw [List.take_eq_take]
    simp only [List.length_drop]
    omega
  rw [htake]

/-- On buckets whose sentences all trim non-empty, the chunk builder keeps
exactly the non-empty buckets and rejoins each. -/
theorem filterMap_chunks_eq (gs : List (List (List Char)))
    (h : ∀ g ∈ gs, ∀ s ∈ g, jsTrim s ≠ []) :
    gs.filterMap (fun g =>
        if (jsTrim (joinDotSpace g)).length > 0
        then some (jsTrim (joinDotSpace g) ++ ['.']) else none) =
      (gs.filter (fun g => !g.isEmpty)).map (fun g => jsTrim (joinDotSpace g) ++ ['.']) := by
  induction gs with
  | nil => rfl
  | cons g rest ih =>
    have hrest := ih (fun g' hg' s hs => h g' (List.mem_cons_of_mem g hg') s hs)
    cases g with
    | nil =>
      have hnil : ¬((jsTrim (joinDotSpace ([] : List (List Char)))).length > 0) := by
        simp [joinDotSpace, jsTrim, trimRight, trimLeft]
      simp only [List.filterMap_cons, List.filter_cons, if_neg hnil]
      simp [hrest]
    | cons s g' =>
      have hne : jsTrim (joinDotSpace (s :: g')) ≠ [] :=
        jsTrim_joinDotSpace_ne_nil (List.mem_cons_self s g')
          (h (s :: g') (List.mem_cons_self _ _) s (List.mem_cons_self s g'))
      have hpos : (jsTrim (joinDotSpace (s :: g'))).length > 0 := List.length_pos.mpr hne
      simp only [List.filterMap_cons, List.filter_cons, if_pos hpos]
      simp [List.isEmpty, hrest]

theorem four_buckets_cover (sent : List (List Char)) (cs : Nat)
    (hcs : sent.length ≤ 4 * cs) :
    (sent.drop (0 * cs)).take cs ++ (sent.drop (1 * cs)).take cs ++
      (sent.drop (2 * cs)).take cs ++ (sent.drop (3 * cs)).take cs = sent := by
  have h3 : (sent.drop (3 * cs)).take cs = sent.drop (3 * cs) := by
    apply List.take_of_length_le
    simp only [List.length_drop]
    omega
  have e1 : (sent.drop cs).drop cs = sent.drop (2 * cs) := by
    rw [List.drop_drop]
    congr 1
    omega
  have e2 : (sent.drop (2 * cs)).drop cs = sent.drop (3 * cs) := by
    rw [List.drop_drop]
    congr 1
    omega
  calc (sent.drop (0 * cs)).take cs ++ (sent.drop (1 * cs)).take cs ++
      (sent.drop (2 * cs)).take cs ++ (sent.drop (3 * cs)).take cs
      = sent.take cs ++ ((sent.drop cs).take cs ++
        (((sent.drop cs).drop cs).take cs ++ ((sent.drop cs).drop cs).drop cs)) := by
        rw [h3, e1, e2]
        simp [List.append_assoc]
    _ = sent := by
        rw [List.take_append_drop, List.take_append_drop, List.take_append_drop]

theorem chunkSize_bound (n : Nat) : n ≤ 4 * ((n + 4 - 1) / 4) := by
  have := Nat.div_add_mod (n + 4 - 1) 4
  have := Nat.mod_lt (n + 4 - 1) (show 0 < 4 from by omega)
  omega

theorem fbChunkScenes_map_content (characterDNA : CharacterDNA) :
    ∀ (chunks : List (List Char)) (n : Nat),
    (fbChunkScenes characterDNA n chunks).map (fun sc => sc.content) = chunks
  | [], _ => rfl
  | c :: cs, n => by
    simp [fbChunkScenes, mkChunkScene, fbChunkScenes_map_content characterDNA cs (n + 1)]

theorem fbChunkScenes_title (characterDNA : CharacterDNA) :
    ∀ (chunks : List (List Char)) (n i : Nat)
    (h : i < (fbChunkScenes characterDNA n chunks).length),
    (fbChunkScenes characterDNA n chunks)[i].title = "Scene ".toList ++ natChars (n + i + 1)
  | [], _, i, h => by simp [fbChunkScenes] at h
  | c :: cs, n, 0, h => by simp [fbChunkScenes, mkChunkScene]
  | c :: cs, n, i + 1, h => by
    have hj : i < (fbChunkScenes characterDNA (n + 1) cs).length := by
      simpa [fbChunkScenes] using h
    have := fbChunkScenes_title characterDNA cs (n + 1) i hj
    simpa [fbChunkScenes, Nat.add_assoc, Nat.add_comm, Nat.add_left_comm] using this

theorem splitTextIntoChunks_length_le (text : List Char) :
    (splitTextIntoChunks text 4).length ≤ 4 := by
  unfold splitTextIntoChunks
  calc ((List.range 4).filterMap _).length ≤ (List.range 4).length :=
        List.length_filterMap_le _ _
    _ = 4 := by simp

/-! ## Remaining support lemmas -/

theorem mem_of_mem_trimRight {c : Char} : ∀ {l : List Char}, c ∈ trimRight l → c ∈ l
  | [], h => by simp [trimRight] at h
  | a :: t, h => by
    rw [trimRight_cons] at h
    cases ht : trimRight t with
    | nil =>
      rw [ht] at h
      by_cases hw : isWsChar a = true
      · simp [hw] at h
      · simp only [Bool.not_eq_true] at hw
        simp [hw] at h
        simp [h]
    | cons x xs =>
      rw [ht] at h
      rcases List.mem_cons.mp h with rfl | hin
      · exact List.mem_cons_self c t
      · exact List.mem_cons_of_mem a (mem_of_mem_trimRight (ht ▸ hin))

theorem mem_of_mem_jsTrim {c : Char} {l : List Char} (h : c ∈ jsTrim l) : c ∈ l :=
  mem_of_mem_trimRight ((List.dropWhile_sublist _).subset h)

theorem fbChunkScenes_length (characterDNA : CharacterDNA) (chunks : List (List Char)) (n : Nat) :
    (fbChunkScenes characterDNA n chunks).length = chunks.length := by
  have := congrArg List.length (fbChunkScenes_map_content characterDNA chunks n)
  simpa using this

theorem scenesFrom_getElem (characterDNA : CharacterDNA) :
    ∀ (pairs : List (List Char × List Char)) (n i : Nat)
    (h : i < (scenesFrom characterDNA n pairs).length),
    (scenesFrom characterDNA n pairs)[i] =
      mkPrimScene characterDNA (n + i) (jsTrim (pairs.getD i ([], [])).1)
        (jsTrim (pairs.getD i ([], [])).2)
  | [], n, i, h => by simp [scenesFrom] at h
  | (t, b) :: ps, n, 0, h => by simp [scenesFrom]
  | (t, b) :: ps, n, i + 1, h => by
    have hj : i < (scenesFrom characterDNA (n + 1) ps).length := by
      simpa [scenesFrom] using h
    have := scenesFrom_getElem characterDNA ps (n + 1) i hj
    simpa [scenesFrom, Nat.add_assoc, Nat.add_comm, Nat.add_left_comm] using this

theorem containsSub_append_right (x needle : List Char) :
    containsSub needle (x ++ needle) = true := by
  rw [containsSub, List.any_eq_true]
  exact ⟨needle, (List.mem_tails _ _).mpr (List.suffix_append x needle),
    List.isPrefixOf_iff_prefix.mpr (List.prefix_refl needle)⟩

theorem containsSub_append_middle (x y needle : List Char) :
    containsSub needle (x ++ (needle ++ y)) = true := by
  rw [containsSub, List.any_eq_true]
  exact ⟨needle ++ y, (List.mem_tails _ _).mpr (List.suffix_append x (needle ++ y)),
    List.isPrefixOf_iff_prefix.mpr (List.prefix_append needle y)⟩

theorem generateStoryAux_ok {client : Nat → Except (List Char) (List Char)}
    {parseCrash : Nat → Bool} {genre : List Char} {characterDNA : CharacterDNA}
    {attempt fuel : Nat} {t : List Char} (hc : client attempt = Except.ok t) :
    generateStoryAux client parseCrash genre characterDNA attempt (fuel + 1) =
      Except.ok (mkGenerationResult genre characterDNA t
        (if parseCrash attempt then crashFallbackStory characterDNA t
         else parseStoryIntoScenes t characterDNA) attempt) := by
  simp [generateStoryAux, hc]

theorem generateStoryAux_retry {client : Nat → Except (List Char) (List Char)}
    {parseCrash : Nat → Bool} {genre : List Char} {characterDNA : CharacterDNA}
    {attempt fuel : Nat} {m : List Char} (hc : client attempt = Except.error m)
    (hretry : isRetryableError m = true) (hne : ¬attempt = maxRetries) :
    generateStoryAux client parseCrash genre characterDNA attempt (fuel + 1) =
      generateStoryAux client parseCrash genre characterDNA (attempt + 1) fuel := by
  simp [generateStoryAux, hc, hretry, hne]

theorem generateStoryAux_fail {client : Nat → Except (List Char) (List Char)}
    {parseCrash : Nat → Bool} {genre : List Char} {characterDNA : CharacterDNA}
    {attempt fuel : Nat} {m : List Char} (hc : client attempt = Except.error m)
    (hstop : attempt = maxRetries ∨ isRetryableError m = false) :
    generateStoryAux client parseCrash genre characterDNA attempt (fuel + 1) =
      Except.error (failureMessage attempt m) := by
  rcases hstop with h | h
  · subst h
    simp [generateStoryAux, hc]
  · by_cases hmax : attempt = maxRetries
    · subst hmax
      simp [generateStoryAux, hc]
    · simp [generateStoryAux, hc, h, hmax]

theorem chunk0_pos {sent : List (List Char)} (hne : sent ≠ [])
    (hall : ∀ s ∈ sent, jsTrim s ≠ []) (cs : Nat) (hcs : 1 ≤ cs) :
    (jsTrim (joinDotSpace ((sent.drop (0 * cs)).take cs))).length > 0 := by
  obtain ⟨s0, rest0, rfl⟩ := List.exists_cons_of_ne_nil hne
  obtain ⟨k, rfl⟩ : ∃ k, cs = k + 1 := ⟨cs - 1, by omega⟩
  simp only [gt_iff_lt, List.length_pos]
  refine jsTrim_joinDotSpace_ne_nil ?_ (hall s0 (List.mem_cons_self _ _))
  rw [Nat.zero_mul, List.drop_zero, List.take_succ_cons]
  exact List.mem_cons_self _ _

theorem sentences_all_trim_ne_nil (text : List Char) :
    ∀ s ∈ (splitPunct text).filter (fun s => (jsTrim s).length > 0), jsTrim s ≠ [] := by
  intro s hs
  have := (List.mem_filter.mp hs).2
  simp only [decide_eq_true_eq] at this
  exact List.length_pos.mp this

theorem splitTextIntoChunks_ne_nil {text : List Char} {c : Char}
    (hc : c ∈ text) (hw : isWsChar c = false) (hp : isPunctChar c = false) :
    splitTextIntoChunks text 4 ≠ [] := by
  obtain ⟨frag, hfrag, hcfrag⟩ := mem_splitPunct hp false text hc
  have hfragmem : frag ∈ (splitPunct text).filter (fun s => (jsTrim s).length > 0) := by
    rw [List.mem_filter]
    refine ⟨hfrag, ?_⟩
    simp only [decide_eq_true_eq]
    exact List.length_pos.mpr (jsTrim_ne_nil hcfrag hw)
  have hsentne : (splitPunct text).filter (fun s => (jsTrim s).length > 0) ≠ [] :=
    List.ne_nil_of_mem hfragmem
  have hcs : 1 ≤ (((splitPunct text).filter (fun s => (jsTrim s).length > 0)).length + 4 - 1) / 4 := by
    have h1 : 1 ≤ ((splitPunct text).filter (fun s => (jsTrim s).length > 0)).length :=
      List.length_pos.mpr hsentne
    omega
  have hchunk0 := chunk0_pos hsentne (sentences_all_trim_ne_nil text) _ hcs
  rw [splitTextIntoChunks_eq]
  have hf0 : (fun (i : Nat) =>
      let sentences := (splitPunct text).filter (fun s => (jsTrim s).length > 0)
      let chunkSize := (sentences.length + 4 - 1) / 4
      let chunk := jsTrim (joinDotSpace ((sentences.drop (i * chunkSize)).take chunkSize))
      if chunk.length > 0 then some (chunk ++ ['.']) else none) 0 =
      some (jsTrim (joinDotSpace
        ((((splitPunct text).filter (fun s => (jsTrim s).length > 0)).drop
            (0 * ((((splitPunct text).filter (fun s => (jsTrim s).length > 0)).length + 4 - 1) / 4))).take
          ((((splitPunct text).filter (fun s => (jsTrim s).length > 0)).length + 4 - 1) / 4))) ++ ['.']) := by
    simp only [if_pos hchunk0]
  exact List.ne_nil_of_mem (List.mem_filterMap.mpr ⟨0, by decide, hf0⟩)

/-! ## Concrete inputs used by witnesses and counterexamples -/

def alexDNA : CharacterDNA :=
  { name := "Alex".toList
    traits := ["brave".toList, "curious".toList, "kind".toList]
    description := "a young explorer".toList }

/-! ## Claims -/

/-- Claim C7: for every rawText empty or shorter than 50 characters,
parseStoryIntoScenes returns immediately the emergency-fallback Story: one
scene with id scene_1, number 1, content equal to rawText (or the generic
placeholder when rawText is empty), totalScenes = 1, emergencyFallback =
true. -/
theorem claim7_short_guard (text : List Char) (characterDNA : CharacterDNA)
    (h : text.length < 50) :
    parseStoryIntoScenes text characterDNA = createEmergencyFallback characterDNA text ∧
    (parseStoryIntoScenes text characterDNA).totalScenes = 1 ∧
    (parseStoryIntoScenes text characterDNA).emergencyFallback = true ∧
    (parseStoryIntoScenes text characterDNA).scenes.map
        (fun sc => (sc.id, sc.number, sc.content)) =
      [("scene_1".toList, 1,
        if text.length = 0
        then characterDNA.name ++
          " embarks on an exciting adventure filled with challenges and discoveries.".toList
        else text)] := by
  have hmain : parseStoryIntoScenes text characterDNA =
      createEmergencyFallback characterDNA text := by
    simp [parseStoryIntoScenes, h]
  refine ⟨hmain, ?_, ?_, ?_⟩ <;> rw [hmain] <;>
    by_cases h0 : text.length = 0 <;> simp [createEmergencyFallback, h0]

theorem claim7_witness :
    parseStoryIntoScenes "tiny tale".toList alexDNA =
      createEmergencyFallback alexDNA "tiny tale".toList ∧
    (parseStoryIntoScenes "tiny tale".toList alexDNA).totalScenes = 1 ∧
    (parseStoryIntoScenes "tiny tale".toList alexDNA).emergencyFallback = true ∧
    (parseStoryIntoScenes "tiny tale".toList alexDNA).scenes.map
        (fun sc => (sc.id, sc.number, sc.content)) =
      [("scene_1".toList, 1,
        if ("tiny tale".toList).length = 0
        then alexDNA.name ++
          " embarks on an exciting adventure filled with challenges and discoveries.".toList
        else "tiny tale".toList)] :=
  claim7_short_guard "tiny tale".toList alexDNA (by decide)

/-- Claim C9: parseStoryIntoScenes is deterministic and pure; two calls on
the identical (rawText, character) pair yield structurally identical
Stories, including titles, ids, numbers, contents and storyboard prompts.
In this embedding the parser is a pure function, so this holds
definitionally. -/
theorem claim9_parse_deterministic (text : List Char) (characterDNA : CharacterDNA) :
    parseStoryIntoScenes text characterDNA = parseStoryIntoScenes text characterDNA ∧
    (parseStoryIntoScenes text characterDNA).title =
      (parseStoryIntoScenes text characterDNA).title ∧
    (parseStoryIntoScenes text characterDNA).scenes.map
        (fun sc => (sc.id, sc.number, sc.title, sc.content, sc.storyboardPrompt)) =
      (parseStoryIntoScenes text characterDNA).scenes.map
        (fun sc => (sc.id, sc.number, sc.title, sc.content, sc.storyboardPrompt)) :=
  ⟨rfl, rfl, rfl⟩

theorem generateStoryAux_sceneCount :
    ∀ (fuel : Nat) (client : Nat → Except (List Char) (List Char))
      (parseCrash : Nat → Bool) (genre : List Char) (characterDNA : CharacterDNA)
      (attempt : Nat) (r : GenerationResult),
    generateStoryAux client parseCrash genre characterDNA attempt fuel = Except.ok r →
    r.metadata.sceneCount = r.story.scenes.length
  | 0, client, parseCrash, genre, characterDNA, attempt, r => by
    intro h
    simp [generateStoryAux] at h
  | fuel + 1, client, parseCrash, genre, characterDNA, attempt, r => by
    intro h
    cases hc : client attempt with
    | ok t =>
      rw [generateStoryAux_ok hc] at h
      cases h
      simp [mkGenerationResult]
    | error m =>
      simp only [generateStoryAux, hc] at h
      by_cases hb : (decide (attempt = maxRetries) || !(isRetryableError m)) = true
      · rw [if_pos hb] at h
        simp at h
      · rw [if_neg hb] at h
        exact generateStoryAux_sceneCount fuel client parseCrash genre characterDNA
          (attempt + 1) r h

/-- Claim C10: every successful GenerationResult of generateStory has
metadata.sceneCount equal to the length of story.scenes, also when the
parse crashed and the inline emergency fallback story (a single scene) was
substituted. -/
theorem claim10_sceneCount (client : Nat → Except (List Char) (List Char))
    (parseCrash : Nat → Bool) (genre : List Char) (characterDNA : CharacterDNA)
    (r : GenerationResult)
    (h : generateStory client parseCrash genre characterDNA = Except.ok r) :
    r.metadata.sceneCount = r.story.scenes.length :=
  generateStoryAux_sceneCount maxRetries client parseCrash genre characterDNA 1 r h

def w10Result : GenerationResult :=
  mkGenerationResult "fantasy".toList alexDNA "hi".toList
    (parseStoryIntoScenes "hi".toList alexDNA) 1

theorem claim10_witness : w10Result.metadata.sceneCount = w10Result.story.scenes.length :=
  claim10_sceneCount (fun _ => Except.ok "hi".toList) (fun _ => false) "fantasy".toList
    alexDNA w10Result rfl

/-- Claim C5: an error is retryable iff its lower-cased message contains
one of the eight transient-failure keywords; and a model client that fails
twice with rate-limit messages and then succeeds makes generateStory return
success = true with metadata.attempt = 3. -/
theorem claim5_retry_classification :
    (∀ msg : List Char,
      isRetryableError msg = true ↔
        ∃ kw ∈ ["overloaded".toList, "service unavailable".toList, "503".toList,
          "temporarily unavailable".toList, "rate limit".toList, "quota exceeded".toList,
          "timed out".toList, "timeout".toList],
          containsSub kw (toLowerList msg) = true) ∧
    (∀ (client : Nat → Except (List Char) (List Char)) (parseCrash : Nat → Bool)
      (genre m1 m2 storyText : List Char) (characterDNA : CharacterDNA),
      client 1 = Except.error m1 → client 2 = Except.error m2 →
      client 3 = Except.ok storyText →
      containsSub "rate limit".toList (toLowerList m1) = true →
      containsSub "rate limit".toList (toLowerList m2) = true →
      ∃ r, generateStory client parseCrash genre characterDNA = Except.ok r ∧
        r.success = true ∧ r.metadata.attempt = 3) := by
  constructor
  · intro msg
    rw [isRetryableError, List.any_eq_true]
    rfl
  · intro client parseCrash genre m1 m2 storyText characterDNA hc1 hc2 hc3 hr1 hr2
    have hret1 : isRetryableError m1 = true := by
      rw [isRetryableError, List.any_eq_true]
      exact ⟨"rate limit".toList, by decide, hr1⟩
    have hret2 : isRetryableError m2 = true := by
      rw [isRetryableError, List.any_eq_true]
      exact ⟨"rate limit".toList, by decide, hr2⟩
    refine ⟨mkGenerationResult genre characterDNA storyText
        (if parseCrash 3 then crashFallbackStory characterDNA storyText
         else parseStoryIntoScenes storyText characterDNA) 3, ?_, rfl, rfl⟩
    have s1 := @generateStoryAux_retry client parseCrash genre characterDNA 1 2 m1
      hc1 hret1 (by decide)
    have s2 := @generateStoryAux_retry client parseCrash genre characterDNA 2 1 m2
      hc2 hret2 (by decide)
    have s3 := @generateStoryAux_ok client parseCrash genre characterDNA 3 0 storyText hc3
    norm_num at s1 s2 s3
    show generateStoryAux client parseCrash genre characterDNA 1 maxRetries = _
    rw [show maxRetries = 3 from rfl, s1, s2, s3]

def c5Client : Nat → Except (List Char) (List Char) :=
  fun a => if a ≤ 2 then Except.error "Rate limit reached".toList
           else Except.ok "All good now".toList

theorem claim5_witness :
    isRetryableError "Rate limit reached".toList = true ∧
    ∃ r, generateStory c5Client (fun _ => false) "fantasy".toList alexDNA = Except.ok r ∧
      r.success = true ∧ r.metadata.attempt = 3 :=
  ⟨(claim5_retry_classification.1 "Rate limit reached".toList).mpr
      ⟨"rate limit".toList, by decide, by decide⟩,
    claim5_retry_classification.2 c5Client (fun _ => false) "fantasy".toList
      "Rate limit reached".toList "Rate limit reached".toList "All good now".toList alexDNA
      rfl rfl rfl (by decide) (by decide)⟩

/-- Claim C6: a non-retryable first failure makes generateStory raise the
terminal error right away, and that error message contains the attempt
count (1) and the underlying message.  The equation holds for every client
agreeing on attempt 1, whatever attempts 2 and 3 would return, which is the
no-further-attempts property. -/
theorem claim6_nonretryable (client : Nat → Except (List Char) (List Char))
    (parseCrash : Nat → Bool) (genre : List Char) (characterDNA : CharacterDNA)
    (m : List Char) (hc : client 1 = Except.error m)
    (hnr : isRetryableError m = false) :
    generateStory client parseCrash genre characterDNA =
      Except.error (failureMessage 1 m) ∧
    containsSub m (failureMessage 1 m) = true ∧
    containsSub (natChars 1) (failureMessage 1 m) = true := by
  refine ⟨?_, ?_, ?_⟩
  · show generateStoryAux client parseCrash genre characterDNA 1 maxRetries = _
    rw [show maxRetries = 2 + 1 from rfl]
    exact generateStoryAux_fail hc (Or.inr hnr)
  · rw [failureMessage,
      show "Story generation failed after ".toList ++ natChars 1 ++ " attempts: ".toList ++ m =
        ("Story generation failed after ".toList ++ natChars 1 ++ " attempts: ".toList) ++ m
      from by simp [List.append_assoc]]
    exact containsSub_append_right _ m
  · rw [failureMessage,
      show "Story generation failed after ".toList ++ natChars 1 ++ " attempts: ".toList ++ m =
        "Story generation failed after ".toList ++ (natChars 1 ++ (" attempts: ".toList ++ m))
      from by simp [List.append_assoc]]
    exact containsSub_append_middle _ _ _

theorem claim6_witness :
    generateStory (fun _ => Except.error "invalid api key".toList) (fun _ => false)
        "fantasy".toList alexDNA =
      Except.error (failureMessage 1 "invalid api key".toList) ∧
    containsSub "invalid api key".toList (failureMessage 1 "invalid api key".toList) = true ∧
    containsSub (natChars 1) (failureMessage 1 "invalid api key".toList) = true :=
  claim6_nonretryable (fun _ => Except.error "invalid api key".toList) (fun _ => false)
    "fantasy".toList alexDNA "invalid api key".toList rfl (by decide)

def c4Text : List Char :=
  "SCENE 1: The Beginning\nOur hero sets out at dawn on a long journey.".toList

/-- Claim C4 (code-bug evidence): a well-marked text yielding one primary
scene is padded to 4, and the padded scenes are built without a description
property (description = none) although their content is non-empty, against
the documented invariant description = content. -/
theorem claim4_missing_description :
    (parseStoryIntoScenes c4Text alexDNA).scenes.map (fun sc => sc.description) =
      [some "Our hero sets out at dawn on a long journey.".toList, none, none, none] ∧
    ∀ sc ∈ (parseStoryIntoScenes c4Text alexDNA).scenes, sc.content ≠ [] := by
  decide

theorem fallbackParseStory_length_pos {text : List Char} {characterDNA : CharacterDNA}
    {c : Char} (hc : c ∈ text) (hw : isWsChar c = false) (hp : isPunctChar c = false) :
    1 ≤ (fallbackParseStory text characterDNA).scenes.length := by
  rw [fallbackParseStory]
  simp only [List.length_take, List.length_map]
  by_cases hz : (fbScan characterDNA
      ((splitOnNl text).filter (fun l => (jsTrim l).length > 0)) [] none 0).length = 0
  · rw [if_pos hz, fbChunkScenes_length]
    have h1 : 1 ≤ (splitTextIntoChunks text 4).length :=
      List.length_pos.mpr (splitTextIntoChunks_ne_nil hc hw hp)
    omega
  · rw [if_neg hz]
    omega

/-- Claim C2 (amended): parseStoryIntoScenes is total, and every non-empty
text that is short (under 50 characters) or contains at least one character
that is neither whitespace nor sentence punctuation yields a Story with at
least one scene.  Not every non-empty text does: 50 bang characters yield a
Story with an empty scene list (see the counterexample). -/
theorem claim2_amended (text : List Char) (characterDNA : CharacterDNA)
    (_hne : text ≠ [])
    (hgood : text.length < 50 ∨ ∃ c ∈ text, isWsChar c = false ∧ isPunctChar c = false) :
    1 ≤ (parseStoryIntoScenes text characterDNA).scenes.length := by
  by_cases h50 : text.length < 50
  · simp [parseStoryIntoScenes, h50, createEmergencyFallback]
  · obtain ⟨c, hcmem, hw, hp⟩ : ∃ c ∈ text, isWsChar c = false ∧ isPunctChar c = false := by
      rcases hgood with h | h
      · exact absurd h h50
      · exact h
    by_cases hz : (primLoop characterDNA (primaryParts text) []).length = 0
    · rw [show parseStoryIntoScenes text characterDNA =
          fallbackParseStory text characterDNA from by
        simp [parseStoryIntoScenes, h50, hz]]
      exact fallbackParseStory_length_pos hcmem hw hp
    · simp only [parseStoryIntoScenes, if_neg h50, if_neg hz]
      by_cases hgt : (primLoop characterDNA (primaryParts text) []).length > 4
      · simp only [if_pos hgt, List.length_take]
        omega
      · simp only [if_neg hgt]
        by_cases hlt : (primLoop characterDNA (primaryParts text) []).length < 4
        · simp only [if_pos hlt]
          rw [padScenes_length (by omega)]
          omega
        · simp only [if_neg hlt]
          omega

def c2Text : List Char := List.replicate 50 '!'

theorem claim2_counterexample :
    c2Text ≠ [] ∧ 50 ≤ c2Text.length ∧
    (parseStoryIntoScenes c2Text alexDNA).scenes.length = 0 := by
  decide

theorem claim2_witness :
    1 ≤ (parseStoryIntoScenes "hello friend".toList alexDNA).scenes.length :=
  claim2_amended "hello friend".toList alexDNA (by decide) (Or.inl (by decide))

/-! ## The primary strategy on whole well-marked texts -/

theorem parse_mkMarked_primLoop (characterDNA : CharacterDNA)
    (pairs : List (List Char × List Char)) (h9 : pairs.length ≤ 9)
    (hgood : ∀ p ∈ pairs, goodPairB p = true)
    (hfree : mkMarkedFree 1 pairs = true) :
    primLoop characterDNA (primaryParts (mkMarked 1 pairs)) [] =
      scenesFrom characterDNA 1 (pairs.take 4) := by
  rw [primaryParts, splitScene_mkMarked h9 hfree]
  rw [if_pos (by simp [jsTrim, trimRight, trimLeft])]
  rw [show (([] : List Char) :: pairs.map (fun p => segOf p.1 p.2)).tail =
      pairs.map (fun p => segOf p.1 p.2) from rfl]
  rw [primLoop_map_seg characterDNA pairs [] (by simp) hgood]
  simp

theorem parse_mkMarked_eq (characterDNA : CharacterDNA)
    (pairs : List (List Char × List Char)) (h9 : pairs.length ≤ 9)
    (h4 : 4 ≤ pairs.length)
    (hgood : ∀ p ∈ pairs, goodPairB p = true)
    (hfree : mkMarkedFree 1 pairs = true)
    (h50 : 50 ≤ (mkMarked 1 pairs).length) :
    (parseStoryIntoScenes (mkMarked 1 pairs) characterDNA).scenes =
      scenesFrom characterDNA 1 (pairs.take 4) ∧
    (parseStoryIntoScenes (mkMarked 1 pairs) characterDNA).totalScenes = 4 := by
  have hp := parse_mkMarked_primLoop characterDNA pairs h9 hgood hfree
  have hlen : (scenesFrom characterDNA 1 (pairs.take 4)).length = 4 := by
    rw [scenesFrom_length, List.length_take]
    omega
  have hz : ¬(primLoop characterDNA (primaryParts (mkMarked 1 pairs)) []).length = 0 := by
    rw [hp, hlen]
    omega
  have hn50 : ¬(mkMarked 1 pairs).length < 50 := by omega
  simp only [parseStoryIntoScenes, if_neg hn50, if_neg hz, hp, hlen]
  norm_num

/-- Claim C1 (amended): a model text with exactly 4 well-marked scenes
parses to exactly 4 scenes with number 1..4 and id scene_n holding the
trimmed titles and bodies in input order; and in every Story the parser
returns, scene numbers are strictly increasing and each id matches
scene_number.  (The numbers of a fallback-parsed Story need not be exactly
1..4; see the counterexample.) -/
theorem claim1_wellmarked :
    (∀ (characterDNA : CharacterDNA) (pairs : List (List Char × List Char)),
      pairs.length = 4 →
      (∀ p ∈ pairs, goodPairB p = true) →
      mkMarkedFree 1 pairs = true →
      50 ≤ (mkMarked 1 pairs).length →
      (parseStoryIntoScenes (mkMarked 1 pairs) characterDNA).scenes.length = 4 ∧
      ∀ (i : Nat)
        (h : i < (parseStoryIntoScenes (mkMarked 1 pairs) characterDNA).scenes.length),
        ((parseStoryIntoScenes (mkMarked 1 pairs) characterDNA).scenes[i]).number = i + 1 ∧
        ((parseStoryIntoScenes (mkMarked 1 pairs) characterDNA).scenes[i]).id =
          sceneId (i + 1) ∧
        ((parseStoryIntoScenes (mkMarked 1 pairs) characterDNA).scenes[i]).title =
          jsTrim (pairs.getD i ([], [])).1 ∧
        ((parseStoryIntoScenes (mkMarked 1 pairs) characterDNA).scenes[i]).content =
          jsTrim (pairs.getD i ([], [])).2) ∧
    (∀ (text : List Char) (characterDNA : CharacterDNA),
      (parseStoryIntoScenes text characterDNA).scenes.Pairwise
        (fun a b => a.number < b.number) ∧
      ∀ sc ∈ (parseStoryIntoScenes text characterDNA).scenes,
        sc.id = sceneId sc.number) := by
  constructor
  · intro characterDNA pairs h4 hgood hfree h50
    obtain ⟨hsc, _⟩ := parse_mkMarked_eq characterDNA pairs (by omega) (by omega)
      hgood hfree h50
    rw [List.take_of_length_le (by omega)] at hsc
    have hlen : (parseStoryIntoScenes (mkMarked 1 pairs) characterDNA).scenes.length = 4 := by
      rw [hsc, scenesFrom_length, h4]
    refine ⟨hlen, ?_⟩
    intro i hi
    have hi' : i < (scenesFrom characterDNA 1 pairs).length := by
      rw [scenesFrom_length, h4]
      omega
    have hget : (parseStoryIntoScenes (mkMarked 1 pairs) characterDNA).scenes[i] =
        (scenesFrom characterDNA 1 pairs)[i] := by
      congr 1
    rw [hget, scenesFrom_getElem characterDNA pairs 1 i hi']
    refine ⟨by simp [mkPrimScene]; omega, by simp [mkPrimScene]; congr 1; omega, ?_, ?_⟩ <;>
      simp [mkPrimScene]
  · intro text characterDNA
    rcases parseStoryIntoScenes_cases text characterDNA with he | hf | ⟨scenes2, hg, heq⟩
    · rw [he]
      constructor
      · simp [createEmergencyFallback]
      · intro sc hm
        simp only [createEmergencyFallback, List.mem_singleton] at hm
        subst hm
        show "scene_1".toList = sceneId 1
        decide
    · rw [hf]
      exact fallbackParseStory_numbering text characterDNA
    · rw [heq]
      exact ⟨goodList_pairwise hg, goodList_id_ok hg⟩

def pairs4 : List (List Char × List Char) :=
  [("The Door".toList, "Alex finds a hidden door in the cellar wall.".toList),
   ("The Key".toList, "A rusty key glints under the dusty floor boards.".toList),
   ("The Hall".toList, "Beyond the door a long hall stretches into dark.".toList),
   ("The Light".toList, "At the end a warm light beckons them onward.".toList)]

theorem claim1_witness :
    (parseStoryIntoScenes (mkMarked 1 pairs4) alexDNA).scenes.length = 4 ∧
    (parseStoryIntoScenes "no markers at all in this text".toList alexDNA).scenes.Pairwise
      (fun a b => a.number < b.number) :=
  ⟨(claim1_wellmarked.1 alexDNA pairs4 (by decide) (by decide) (by decide) (by decide)).1,
   (claim1_wellmarked.2 "no markers at all in this text".toList alexDNA).1⟩

def c1Text : List Char :=
  "SCENE 1:\nSCENE 2:\ncontent for scene two here, quite long enough.".toList

theorem claim1_counterexample :
    50 ≤ c1Text.length ∧
    (parseStoryIntoScenes c1Text alexDNA).scenes.map (fun sc => sc.number) = [2] := by
  decide

/-- Claim C3 (amended): a text from which the primary strategy extracts
between 1 and 3 scenes is padded to exactly 4 by appending the generic
continuation scenes with increasing numbers, totalScenes = 4; and a
well-marked text with more than 4 (up to 9) scenes keeps exactly the first
4.  Scenes collected only by the fallback line scan are returned unpadded
with totalScenes equal to their count (see the counterexample). -/
theorem claim3_pad_truncate :
    (∀ (text : List Char) (characterDNA : CharacterDNA),
      50 ≤ text.length →
      1 ≤ (primLoop characterDNA (primaryParts text) []).length →
      (primLoop characterDNA (primaryParts text) []).length < 4 →
      (parseStoryIntoScenes text characterDNA).scenes =
        primLoop characterDNA (primaryParts text) [] ++
          (List.range (4 - (primLoop characterDNA (primaryParts text) []).length)).map
            (fun j => padScene characterDNA
              ((primLoop characterDNA (primaryParts text) []).length + 1 + j)) ∧
      (parseStoryIntoScenes text characterDNA).totalScenes = 4) ∧
    (∀ (characterDNA : CharacterDNA) (pairs : List (List Char × List Char)),
      5 ≤ pairs.length → pairs.length ≤ 9 →
      (∀ p ∈ pairs, goodPairB p = true) →
      mkMarkedFree 1 pairs = true →
      50 ≤ (mkMarked 1 pairs).length →
      (parseStoryIntoScenes (mkMarked 1 pairs) characterDNA).scenes =
        scenesFrom characterDNA 1 (pairs.take 4) ∧
      (parseStoryIntoScenes (mkMarked 1 pairs) characterDNA).scenes.length = 4 ∧
      (parseStoryIntoScenes (mkMarked 1 pairs) characterDNA).totalScenes = 4) := by
  constructor
  · intro text characterDNA h50 h1 h4
    have hz : ¬(primLoop characterDNA (primaryParts text) []).length = 0 := by omega
    have hn50 : ¬text.length < 50 := by omega
    simp only [parseStoryIntoScenes, if_neg hn50, if_neg hz]
    rw [if_neg (by omega), if_pos h4]
    refine ⟨?_, trivial⟩
    rw [padScenes, padLoop_closed characterDNA 4 _ (by omega)]
  · intro characterDNA pairs h5 h9 hgood hfree h50
    obtain ⟨hsc, htot⟩ := parse_mkMarked_eq characterDNA pairs h9 (by omega) hgood hfree h50
    refine ⟨hsc, ?_, htot⟩
    rw [hsc, scenesFrom_length, List.length_take]
    omega

def c3Text : List Char :=
  "SCENE 1: The Start\nA quiet village wakes to strange lights in the sky.".toList

def pairs6 : List (List Char × List Char) :=
  pairs4 ++
  [("The Test".toList, "A guardian bars the way and asks a riddle.".toList),
   ("The End".toList, "Alex answers well and the path opens wide.".toList)]

theorem claim3_witness :
    (parseStoryIntoScenes c3Text alexDNA).totalScenes = 4 ∧
    (parseStoryIntoScenes (mkMarked 1 pairs6) alexDNA).scenes.length = 4 :=
  ⟨(claim3_pad_truncate.1 c3Text alexDNA (by decide) (by decide) (by decide)).2,
   (claim3_pad_truncate.2 alexDNA pairs6 (by decide) (by decide) (by decide) (by decide)
      (by decide)).2.1⟩

def c3cText : List Char :=
  "SCENE 1:\nSCENE 2:\nhere is plenty of content for the second scene only.".toList

theorem claim3_counterexample :
    50 ≤ c3cText.length ∧
    (parseStoryIntoScenes c3cText alexDNA).scenes.length = 1 ∧
    (parseStoryIntoScenes c3cText alexDNA).totalScenes = 1 := by
  decide

/-! ## Markerless single-line texts reach the chunk splitter -/

theorem primLoop_single_line (characterDNA : CharacterDNA) {text : List Char}
    (hnl : '\n' ∉ text) :
    primLoop characterDNA [text] [] = [] := by
  by_cases htr : (jsTrim text).length = 0
  · simp only [primLoop]
    rw [if_pos (by norm_num), if_pos htr]
  · have hnl2 : '\n' ∉ jsTrim text := fun hm => hnl (mem_of_mem_jsTrim hm)
    have hlines : splitOnNl (jsTrim text) = [jsTrim text] := splitOnNl_no_nl hnl2
    have hguard : ¬((decide (0 < (jsTrim ((splitOnNl (jsTrim text)).headD [])).length) &&
        decide (0 < (jsTrim (joinNl (splitOnNl (jsTrim text)).tail)).length)) = true) := by
      rw [hlines]
      simp [joinNl, jsTrim, trimRight, trimLeft]
    simp only [primLoop]
    rw [if_pos (by norm_num), if_neg htr, if_neg hguard]

theorem fbScan_single_markerless (characterDNA : CharacterDNA) {text : List Char}
    (hhead : matchHeaderNC (jsTrim text) = false) :
    fbScan characterDNA [text] [] none 0 = [] := by
  simp [fbScan, hhead]

theorem parse_markerless_single_line (characterDNA : CharacterDNA) {text : List Char}
    (h50 : 50 ≤ text.length) (hnl : '\n' ∉ text)
    (hmark : hasSceneMarker text = false) :
    parseStoryIntoScenes text characterDNA = fallbackParseStory text characterDNA := by
  have hsplit : splitScene text = [text] := splitScene_no_marker hmark
  have hz : primLoop characterDNA (primaryParts text) [] = [] := by
    rw [primaryParts, hsplit]
    by_cases htr : (jsTrim (([text] : List (List Char)).headD [])).length = 0
    · rw [if_pos htr]
      rfl
    · rw [if_neg htr]
      exact primLoop_single_line characterDNA hnl
  have hn50 : ¬text.length < 50 := by omega
  simp [parseStoryIntoScenes, hn50, hz]

/-- The chunk builder over an arbitrary index list, with every sentence
trimming non-empty: it keeps exactly the indices with non-empty buckets. -/
theorem filterMap_chunks_eq_idx (sent : List (List Char)) (cs : Nat)
    (hall : ∀ s ∈ sent, jsTrim s ≠ []) :
    ∀ (idxs : List Nat),
    idxs.filterMap (fun i =>
      if (jsTrim (joinDotSpace ((sent.drop (i * cs)).take cs))).length > 0
      then some (jsTrim (joinDotSpace ((sent.drop (i * cs)).take cs)) ++ ['.']) else none) =
    ((idxs.map (fun i => (sent.drop (i * cs)).take cs)).filter (fun g => !g.isEmpty)).map
      (fun g => jsTrim (joinDotSpace g) ++ ['.'])
  | [] => rfl
  | i :: rest => by
    have hrest := filterMap_chunks_eq_idx sent cs hall rest
    cases hg : (sent.drop (i * cs)).take cs with
    | nil =>
      have hnone : (if (jsTrim (joinDotSpace ((sent.drop (i * cs)).take cs))).length > 0
          then some (jsTrim (joinDotSpace ((sent.drop (i * cs)).take cs)) ++ ['.'])
          else none) = none := by
        rw [hg]
        rfl
      rw [List.filterMap_cons, List.map_cons, List.filter_cons]
      simp only [hnone]
      rw [hg]
      simp only [List.isEmpty_nil, Bool.not_true]
      rw [if_neg (by simp)]
      exact hrest
    | cons s g' =>
      have hsmem : s ∈ sent := by
        have h1 : s ∈ (sent.drop (i * cs)).take cs := by
          rw [hg]
          exact List.mem_cons_self s g'
        exact (List.drop_subset _ _) ((List.take_subset _ _) h1)
      have hne : jsTrim (joinDotSpace ((sent.drop (i * cs)).take cs)) ≠ [] := by
        rw [hg]
        exact jsTrim_joinDotSpace_ne_nil (List.mem_cons_self s g') (hall s hsmem)
      have hpos : (jsTrim (joinDotSpace ((sent.drop (i * cs)).take cs))).length > 0 :=
        List.length_pos.mpr hne
      have hsome : (if (jsTrim (joinDotSpace ((sent.drop (i * cs)).take cs))).length > 0
          then some (jsTrim (joinDotSpace ((sent.drop (i * cs)).take cs)) ++ ['.'])
          else none) = some (jsTrim (joinDotSpace ((sent.drop (i * cs)).take cs)) ++ ['.']) :=
        if_pos hpos
      rw [List.filterMap_cons, List.map_cons, List.filter_cons]
      simp only [hsome]
      rw [hg]
      simp only [List.isEmpty_cons, Bool.not_false, if_true]
      rw [List.map_cons, hrest]


/-- Claim C8 (amended): a text of at least 50 characters with no
recognizable scene markers and no newline (a single unbroken paragraph)
falls through to the chunk splitter: the Story is tagged fallbackParsed,
has at most 4 scenes titled Scene n, and the sentence list splits into four
consecutive buckets whose non-empty ones are exactly the scene contents, so
every sentence lands in exactly one scene.  (A markerless text spanning
several lines can instead be parsed by the primary strategy; see the
counterexample.) -/
theorem claim8_amended (text : List Char) (characterDNA : CharacterDNA)
    (h50 : 50 ≤ text.length) (hnl : '\n' ∉ text)
    (hmark : hasSceneMarker text = false)
    (hhead : matchHeaderNC (jsTrim text) = false) :
    (parseStoryIntoScenes text characterDNA).fallbackParsed = true ∧
    (parseStoryIntoScenes text characterDNA).scenes.length ≤ 4 ∧
    (∀ (i : Nat) (h : i < (parseStoryIntoScenes text characterDNA).scenes.length),
      ((parseStoryIntoScenes text characterDNA).scenes[i]).title =
        "Scene ".toList ++ natChars (i + 1)) ∧
    ∃ g1 g2 g3 g4,
      g1 ++ g2 ++ g3 ++ g4 = (splitPunct text).filter (fun s => (jsTrim s).length > 0) ∧
      (parseStoryIntoScenes text characterDNA).scenes.map (fun sc => sc.content) =
        ([g1, g2, g3, g4].filter (fun g => !g.isEmpty)).map
          (fun g => jsTrim (joinDotSpace g) ++ ['.']) := by
  have hfb := parse_markerless_single_line characterDNA h50 hnl hmark
  have hscan : fbScan characterDNA
      ((splitOnNl text).filter (fun l => (jsTrim l).length > 0)) [] none 0 = [] := by
    rw [splitOnNl_no_nl hnl]
    by_cases htr : (jsTrim text).length > 0
    · rw [show (([text] : List (List Char)).filter (fun l => (jsTrim l).length > 0)) = [text]
        from by simp [htr]]
      exact fbScan_single_markerless characterDNA hhead
    · rw [show (([text] : List (List Char)).filter (fun l => (jsTrim l).length > 0)) = []
        from by simp [htr]]
      rfl
  have hstory : parseStoryIntoScenes text characterDNA =
      { title := adventureTitle characterDNA
        scenes := ((fbChunkScenes characterDNA 0 (splitTextIntoChunks text 4)).map
          (descUpdate characterDNA)).take 4
        totalScenes := min ((fbChunkScenes characterDNA 0 (splitTextIntoChunks text 4)).map
          (descUpdate characterDNA)).length 4
        character := characterDNA
        fallbackParsed := true } := by
    rw [hfb]
    simp [fallbackParseStory, hscan]
  rw [hstory]
  refine ⟨rfl, by simp, ?_, ?_⟩
  · intro i hi
    have hi2 : i < (fbChunkScenes characterDNA 0 (splitTextIntoChunks text 4)).length := by
      simp only [List.length_take, List.length_map] at hi ⊢
      omega
    show (((fbChunkScenes characterDNA 0 (splitTextIntoChunks text 4)).map
        (descUpdate characterDNA)).take 4)[i].title = _
    rw [List.getElem_take _, List.getElem_map _]
    rw [show ∀ sc, (descUpdate characterDNA sc).title = sc.title from fun sc => rfl]
    rw [fbChunkScenes_title characterDNA (splitTextIntoChunks text 4) 0 i hi2]
    simp
  · refine ⟨_, _, _, _, four_buckets_cover
      ((splitPunct text).filter (fun s => (jsTrim s).length > 0))
      ((((splitPunct text).filter (fun s => (jsTrim s).length > 0)).length + 4 - 1) / 4)
      (chunkSize_bound _), ?_⟩
    have hmapcontent : ((((fbChunkScenes characterDNA 0 (splitTextIntoChunks text 4)).map
        (descUpdate characterDNA)).take 4).map (fun sc => sc.content)) =
        splitTextIntoChunks text 4 := by
      rw [List.map_take, List.map_map]
      rw [show ((fun sc => sc.content) ∘ descUpdate characterDNA : Scene → List Char) =
        fun sc => sc.content from rfl]
      rw [fbChunkScenes_map_content]
      exact List.take_of_length_le (splitTextIntoChunks_length_le text)
    show ((((fbChunkScenes characterDNA 0 (splitTextIntoChunks text 4)).map
        (descUpdate characterDNA)).take 4).map (fun sc => sc.content)) = _
    rw [hmapcontent, splitTextIntoChunks_eq]
    rw [show List.range 4 = [0, 1, 2, 3] from rfl]
    rw [show (([0, 1, 2, 3] : List Nat).filterMap (fun i =>
        let sentences := (splitPunct text).filter (fun s => (jsTrim s).length > 0)
        let chunkSize := (sentences.length + 4 - 1) / 4
        let chunk := jsTrim (joinDotSpace ((sentences.drop (i * chunkSize)).take chunkSize))
        if chunk.length > 0 then some (chunk ++ ['.']) else none)) =
      (([0, 1, 2, 3] : List Nat).filterMap (fun i =>
        if (jsTrim (joinDotSpace
            ((((splitPunct text).filter (fun s => (jsTrim s).length > 0)).drop
              (i * ((((splitPunct text).filter (fun s => (jsTrim s).length > 0)).length + 4 - 1) / 4))).take
              ((((splitPunct text).filter (fun s => (jsTrim s).length > 0)).length + 4 - 1) / 4)))).length > 0
        then some (jsTrim (joinDotSpace
            ((((splitPunct text).filter (fun s => (jsTrim s).length > 0)).drop
              (i * ((((splitPunct text).filter (fun s => (jsTrim s).length > 0)).length + 4 - 1) / 4))).take
              ((((splitPunct text).filter (fun s => (jsTrim s).length > 0)).length + 4 - 1) / 4))) ++ ['.'])
        else none)) from rfl]
    rw [filterMap_chunks_eq_idx ((splitPunct text).filter (fun s => (jsTrim s).length > 0))
      ((((splitPunct text).filter (fun s => (jsTrim s).length > 0)).length + 4 - 1) / 4)
      (sentences_all_trim_ne_nil text) [0, 1, 2, 3]]
    simp only [List.map_cons, List.map_nil]

def c8Text : List Char :=
  "First line of the story text here\nSecond line continues the tale nicely here.".toList

theorem claim8_counterexample :
    50 ≤ c8Text.length ∧ hasSceneMarker c8Text = false ∧
    (parseStoryIntoScenes c8Text alexDNA).fallbackParsed = false := by
  decide

def c8wText : List Char :=
  "The hero walks far. The hero rests. The hero wins the day. The hero sleeps well.".toList

theorem claim8_witness :
    (parseStoryIntoScenes c8wText alexDNA).fallbackParsed = true ∧
    (parseStoryIntoScenes c8wText alexDNA).scenes.length ≤ 4 := by
  have h := claim8_amended c8wText alexDNA (by decide) (by decide) (by decide) (by decide)
  exact ⟨h.1, h.2.1⟩
